import Mathlib

/-!
# Index-lifecycle layer of `jni/src/faiss_index_service.cpp`

A shallow embedding of the index service (parameter injection, index creation,
vector insertion, reconstruction and persistence) together with theorems about it.

Conventions of the embedding:
* a C++ call either returns, throws `std::runtime_error(what)`, or has undefined
  behaviour (division by zero, out-of-bounds access, signed overflow): `Outcome`;
* `int` is `Int` wrapped to 32 bits where the source casts, `size_t`/`uint64_t` is `Nat`
  modulo `2^64`;
* a `std::vector<T>` is a `List T`; `data()` of a vector is the list itself, and a library
  read of `k` elements from it is defined only when the list holds `k` elements;
* a finite `float` is the rational number it denotes.
-/

namespace knn_jni
namespace faiss_wrapper

/-- Result of running a piece of the C++ code. -/
inductive Outcome (α : Type) where
  | ok (v : α)
  | throws (what : String)
  | undefined
  deriving DecidableEq, Repr

namespace Outcome

/-- Sequencing: an exception or undefined behaviour ends the computation. -/
def bind {α β : Type} (x : Outcome α) (f : α → Outcome β) : Outcome β :=
  match x with
  | ok v => f v
  | throws w => throws w
  | undefined => undefined

instance : Monad Outcome where
  pure := Outcome.ok
  bind := Outcome.bind

instance : LawfulMonad Outcome := LawfulMonad.mk' Outcome
  (fun x => by cases x <;> rfl)
  (fun _ _ => rfl)
  (fun x _ _ => by cases x <;> rfl)

end Outcome

/-- Conversion of an `int` to `uint64_t` / `size_t`. -/
def toUInt64 (x : Int) : Nat := (x % 2 ^ 64).toNat

/-- Conversion of an unsigned 64-bit quotient to `int` (two's complement wrap). -/
def toInt32 (x : Nat) : Int :=
  if x % 2 ^ 32 < 2 ^ 31 then ((x % 2 ^ 32 : Nat) : Int) else ((x % 2 ^ 32 : Nat) : Int) - 2 ^ 32

/-- The largest `int`. -/
def INT_MAX : Int := 2147483647

/-- The messages of the exceptions thrown by the insertion paths. -/
def EMPTY_BATCH : String := "Number of vectors cannot be 0"
/-- Message of the identifier-count check. -/
def ID_COUNT_MISMATCH : String := "Number of IDs does not match number of vectors"

/-- The state of a `faiss::IndexIDMap` (or `IndexBinaryIDMap`) that insertion touches:
the dimensionality `d` of the wrapped index, the number of elements one stored vector
occupies (`d` floats, or `d / 8` bytes for a binary index), the stored elements of the
wrapped index in insertion order, its vector count and the identifier list. -/
structure IndexIDMap (α : Type) where
  d : Nat
  code_elems : Nat
  xb : List α
  ntotal : Nat
  id_map : List Int
  deriving DecidableEq, Repr

namespace IndexIDMap

/-- Modelled from the spec: the library insertion `add_with_ids(n, x, xids)`, which is
outside this file. Insertion is append-only: the wrapped index appends the first `n`
vectors found at `x` (each `code_elems` elements wide, the width the index itself was
built with, since the call passes no width) and the map appends the first `n`
identifiers found at `xids`. Reading past either array, or a negative `n`, is
undefined. -/
def add_with_ids {α : Type} (m : IndexIDMap α) (n : Int) (x : List α) (xids : List Int) :
    Outcome (IndexIDMap α) :=
  if n < 0 then .undefined
  else if x.length < n.toNat * m.code_elems then .undefined
  else if xids.length < n.toNat then .undefined
  else .ok { m with
    xb := m.xb ++ x.take (n.toNat * m.code_elems)
    ntotal := m.ntotal + n.toNat
    id_map := m.id_map ++ xids.take n.toNat }

/-- The stored vectors, one list per vector, in insertion order. -/
def rows {α : Type} (m : IndexIDMap α) : List (List α) :=
  (List.range m.ntotal).map (fun i => (m.xb.drop (i * m.code_elems)).take m.code_elems)

/-- The identifier-to-vector entries in insertion order. -/
def entries {α : Type} (m : IndexIDMap α) : List (Int × List α) :=
  m.id_map.zip m.rows

/-- Modelled from the spec: reconstruction by identifier, which is not part of the
service source. The first entry carrying the identifier gives the vector. -/
def reconstruct {α : Type} (m : IndexIDMap α) (key : Int) : Option (List α) :=
  (m.entries.find? (fun e => e.1 == key)).map Prod.snd

/-- Well-formedness of an identifier map: one identifier and one full-width vector per
stored vector. -/
def WellFormed {α : Type} (m : IndexIDMap α) : Prop :=
  m.id_map.length = m.ntotal ∧ m.xb.length = m.ntotal * m.code_elems

end IndexIDMap

/-- Vector count of the float path: `(int) (inputVectors->size() / (uint64_t) dim)`. -/
def IndexService.numVectors (size : Nat) (dim : Int) : Outcome Int :=
  if toUInt64 dim = 0 then .undefined else .ok (toInt32 (size / toUInt64 dim))

/-- Vector count of the binary path:
`(int) (inputVectors->size() / (uint64_t) (dim / 8))`, with C++ truncating division. -/
def BinaryIndexService.numVectors (size : Nat) (dim : Int) : Outcome Int :=
  if toUInt64 (Int.tdiv dim 8) = 0 then .undefined
  else .ok (toInt32 (size / toUInt64 (Int.tdiv dim 8)))

/-- Vector count of the byte path: `int numVectors = inputVectors->size() / dim`, the
`int` operand being converted to `size_t`. -/
def ByteIndexService.numVectors (size : Nat) (dim : Int) : Outcome Int :=
  if toUInt64 dim = 0 then .undefined else .ok (toInt32 (size / toUInt64 dim))

/-- The two checks every insertion path makes on the derived vector count. -/
def checkCounts (numVectors numIds : Int) : Outcome Unit :=
  if numVectors = 0 then .throws EMPTY_BATCH
  else if numIds ≠ numVectors then .throws ID_COUNT_MISMATCH
  else .ok ()

/-- The effect of the one statement that touches the index, `idMap->add_with_ids(...)`:
how it ended and the index it left. -/
def callAddWithIds {α : Type} (idMap : IndexIDMap α) (n : Int) (x : List α)
    (xids : List Int) : Outcome Unit × IndexIDMap α :=
  match idMap.add_with_ids n x xids with
  | .ok m => (.ok (), m)
  | .throws w => (.throws w, idMap)
  | .undefined => (.undefined, idMap)

/-- Float insertion `IndexService::insertToIndex`: how the call ended, and the index as
the call left it. The statements before `add_with_ids` only compute on locals. The
thread hint only sets the OpenMP thread count, which is not part of the index state. -/
def IndexService.insertToIndex {α : Type} (dim numIds _threadCount : Int)
    (inputVectors : List α) (ids : List Int) (idMap : IndexIDMap α) :
    Outcome Unit × IndexIDMap α :=
  match IndexService.numVectors inputVectors.length dim with
  | .ok numVectors =>
    match checkCounts numVectors numIds with
    | .ok _ => callAddWithIds idMap numVectors inputVectors ids
    | .throws w => (.throws w, idMap)
    | .undefined => (.undefined, idMap)
  | .throws w => (.throws w, idMap)
  | .undefined => (.undefined, idMap)

/-- Binary insertion `BinaryIndexService::insertToIndex`. -/
def BinaryIndexService.insertToIndex {α : Type} (dim numIds _threadCount : Int)
    (inputVectors : List α) (ids : List Int) (idMap : IndexIDMap α) :
    Outcome Unit × IndexIDMap α :=
  match BinaryIndexService.numVectors inputVectors.length dim with
  | .ok numVectors =>
    match checkCounts numVectors numIds with
    | .ok _ => callAddWithIds idMap numVectors inputVectors ids
    | .throws w => (.throws w, idMap)
    | .undefined => (.undefined, idMap)
  | .throws w => (.throws w, idMap)
  | .undefined => (.undefined, idMap)

/-- The conversion `static_cast<float>` of a signed byte; every byte is exactly
representable, so the result denotes the same number. -/
def static_cast_float (b : Int) : ℚ := (b : ℚ)

/-- The conversion buffers of the byte path and the read position in the input. -/
structure ByteBatchState where
  iter : Nat
  inputFloatVectors : List ℚ
  floatVectorsIds : List Int
  deriving DecidableEq, Repr

/-- Body of the innermost loop: `inputFloatVectors[i * dim + j] = static_cast<float>(*iter)`
followed by `++iter`. Unchecked accesses outside the arrays are undefined. -/
def ByteIndexService.convertElement (dim i : Nat) (inputVectors : List Int)
    (s : ByteBatchState) (j : Nat) : Outcome ByteBatchState :=
  match inputVectors[s.iter]? with
  | none => .undefined
  | some b =>
    if i * dim + j < s.inputFloatVectors.length then
      .ok { s with
        iter := s.iter + 1
        inputFloatVectors := s.inputFloatVectors.set (i * dim + j) (static_cast_float b) }
    else .undefined

/-- Body of the loop over the vectors of one chunk: `floatVectorsIds[i] = ids[id + i]`,
then the loop `for (int j = 0; j < dim; ++j, ++iter)`. -/
def ByteIndexService.convertVector (dim id : Nat) (inputVectors ids : List Int)
    (s : ByteBatchState) (i : Nat) : Outcome ByteBatchState :=
  match ids[id + i]? with
  | none => .undefined
  | some v =>
    if i < s.floatVectorsIds.length then
      (List.range dim).foldlM (ByteIndexService.convertElement dim i inputVectors)
        { s with floatVectorsIds := s.floatVectorsIds.set i v }
    else .undefined

/-- The loop `for (int i = 0; i < batchSize; ++i)` filling both buffers for one chunk. -/
def ByteIndexService.convertBatch (dim id batchSize : Nat) (inputVectors ids : List Int)
    (s : ByteBatchState) : Outcome ByteBatchState :=
  (List.range batchSize).foldlM (ByteIndexService.convertVector dim id inputVectors ids) s

/-- The variables of the chunking loop. `addCalls` records the chunk size passed to each
library insertion, oldest first. -/
structure ByteLoopState where
  id : Nat
  batchSize : Nat
  buffers : ByteBatchState
  idMap : IndexIDMap ℚ
  addCalls : List Nat
  deriving DecidableEq, Repr

/-- The loop `for (int id = 0; id < numVectors; id += batchSize)`. The step is the loop
variable `batchSize`, which the body may shrink, so the loop is run on fuel: `none` means
the fuel ran out before the loop condition failed. The result is how the loop ended and
the variables (the index among them) as it left them. -/
def ByteIndexService.insertLoop (dim numVectors : Nat) (inputVectors ids : List Int) :
    Nat → ByteLoopState → Option (Outcome Unit × ByteLoopState)
  | fuel, s =>
    if s.id < numVectors then
      match fuel with
      | 0 => none
      | fuel + 1 =>
        let batchSize := if numVectors - s.id < s.batchSize then numVectors - s.id else s.batchSize
        match ByteIndexService.convertBatch dim s.id batchSize inputVectors ids s.buffers with
        | .ok b =>
          match s.idMap.add_with_ids batchSize b.inputFloatVectors b.floatVectorsIds with
          | .ok m =>
            ByteIndexService.insertLoop dim numVectors inputVectors ids fuel
              { id := s.id + batchSize, batchSize := batchSize, buffers := b, idMap := m,
                addCalls := s.addCalls ++ [batchSize] }
          | .throws w => some (.throws w, { s with batchSize := batchSize, buffers := b })
          | .undefined => some (.undefined, { s with batchSize := batchSize, buffers := b })
        | .throws w => some (.throws w, { s with batchSize := batchSize })
        | .undefined => some (.undefined, { s with batchSize := batchSize })
    else some (.ok (), s)

/-- Message of the `std::length_error` of a vector constructed with a negative size. -/
def LENGTH_ERROR : String := "cannot create std::vector larger than max_size()"

/-- The variables of the chunking loop when it is entered: `batchSize = 1000`, the two
value-initialised buffers of `1000 * dim` floats and `1000` identifiers, `iter` at the
start of the input. -/
def ByteIndexService.initialLoopState (dim : Int) (idMap : IndexIDMap ℚ) : ByteLoopState :=
  { id := 0, batchSize := 1000,
    buffers := { iter := 0,
                 inputFloatVectors := List.replicate (1000 * dim).toNat 0,
                 floatVectorsIds := List.replicate 1000 0 },
    idMap := idMap, addCalls := [] }

/-- Byte insertion `ByteIndexService::insertToIndex`: how the call ended, and the index
and the list of chunk sizes handed to the library as the call left them. The statements
before the loop only compute on locals; `batchSize * dim` is an `int` product. -/
def ByteIndexService.insertToIndexTrace (fuel : Nat) (dim numIds _threadCount : Int)
    (inputVectors : List Int) (ids : List Int) (idMap : IndexIDMap ℚ) :
    Option (Outcome Unit × IndexIDMap ℚ × List Nat) :=
  match ByteIndexService.numVectors inputVectors.length dim with
  | .ok numVectors =>
    match checkCounts numVectors numIds with
    | .ok _ =>
      if INT_MAX < 1000 * dim then some (.undefined, idMap, [])
      else if 1000 * dim < 0 then some (.throws LENGTH_ERROR, idMap, [])
      else
        (ByteIndexService.insertLoop dim.toNat numVectors.toNat inputVectors ids fuel
          (ByteIndexService.initialLoopState dim idMap)).map
          fun r => (r.1, r.2.idMap, r.2.addCalls)
    | .throws w => some (.throws w, idMap, [])
    | .undefined => some (.undefined, idMap, [])
  | .throws w => some (.throws w, idMap, [])
  | .undefined => some (.undefined, idMap, [])

/-- Byte insertion `ByteIndexService::insertToIndex`: how the call ended and the index
as the call left it. -/
def ByteIndexService.insertToIndex (fuel : Nat) (dim numIds threadCount : Int)
    (inputVectors : List Int) (ids : List Int) (idMap : IndexIDMap ℚ) :
    Option (Outcome Unit × IndexIDMap ℚ) :=
  (ByteIndexService.insertToIndexTrace fuel dim numIds threadCount inputVectors ids idMap).map
    fun r => (r.1, r.2.1)

/-- Specification of unchunked byte insertion: all vectors widened at once and handed to
the library in a single call with all identifiers. -/
def ByteIndexService.insertUnchunked (numVectors : Nat) (inputVectors : List Int)
    (ids : List Int) (idMap : IndexIDMap ℚ) : Outcome Unit × IndexIDMap ℚ :=
  callAddWithIds idMap numVectors (inputVectors.map static_cast_float) ids

/-- What the conversion buffers hold after `w` elements of the chunk starting at input
position `S` have been converted. -/
def ChunkInv (inputVectors : List Int) (S w : Nat) (len : Nat) (idbuf : List Int)
    (s : ByteBatchState) : Prop :=
  s.iter = S + w ∧ s.inputFloatVectors.length = len ∧ s.floatVectorsIds = idbuf ∧
  ∀ p, p < w → s.inputFloatVectors[p]? = (inputVectors[S + p]?).map static_cast_float

/-- What both conversion buffers hold after `i` vectors of the chunk starting at vector
`id` (input position `S`) have been converted. -/
def BatchInv (dim : Nat) (inputVectors ids : List Int) (S id len idlen i : Nat)
    (s : ByteBatchState) : Prop :=
  ChunkInv inputVectors S (i * dim) len s.floatVectorsIds s ∧
  s.floatVectorsIds.length = idlen ∧
  ∀ q, q < i → s.floatVectorsIds[q]? = ids[id + q]?

/-- The index after the first `k` vectors of the byte batch have been widened and
appended to `m` together with the first `k` identifiers. -/
def appendWidened (dim : Nat) (inputVectors ids : List Int) (m : IndexIDMap ℚ) (k : Nat) :
    IndexIDMap ℚ :=
  { m with
    xb := m.xb ++ (inputVectors.take (k * dim)).map static_cast_float
    ntotal := m.ntotal + k
    id_map := m.id_map ++ ids.take k }

/-- Invariant of the chunking loop at the loop head. -/
def LoopInv (dim n : Nat) (inputVectors ids : List Int) (m : IndexIDMap ℚ)
    (s : ByteLoopState) : Prop :=
  s.id ≤ n ∧ 1 ≤ s.batchSize ∧ s.batchSize ≤ 1000 ∧
  s.buffers.iter = s.id * dim ∧
  s.buffers.inputFloatVectors.length = 1000 * dim ∧
  s.buffers.floatVectorsIds.length = 1000 ∧
  s.idMap = appendWidened dim inputVectors ids m s.id

/-- The first `n` vectors of width `width` found in a flat array, in order. -/
def vectorsOf {α : Type} (width n : Nat) (x : List α) : List (List α) :=
  (List.range n).map (fun i => (x.drop (i * width)).take width)

/-! ### Index trees, parameter injection and index creation -/

/-- The metric of an index (`faiss::MetricType`), as its numeric code. -/
abbrev MetricType := Nat

/-- The fields every `faiss::Index` / `faiss::IndexBinary` carries. -/
structure IndexHeader where
  d : Nat
  ntotal : Nat
  is_trained : Bool
  metric_type : MetricType
  deriving DecidableEq, Repr

/-- A flat vector store (`faiss::IndexFlat`): header and the stored elements. -/
structure IndexFlat where
  hdr : IndexHeader
  codes : List ℚ
  deriving DecidableEq, Repr

/-- A pointer to an index together with the object tree it points to. `null` is the null
pointer; `foreign addr` points to a flat index allocated outside the tree, at `addr`.
The other constructors are the dynamic types the service distinguishes by
`dynamic_cast`: flat storage, the HNSW family (`IndexHNSW`, `IndexBinaryHNSW`), the IVF
family (`IndexIVF`, `IndexBinaryIVF`), the identifier map, and any other index. -/
inductive Index where
  | null
  | foreign (addr : Int)
  | flat (f : IndexFlat)
  | hnsw (hdr : IndexHeader) (efConstruction efSearch : Int) (graph : List (List Nat))
      (own_fields : Bool) (storage : Index)
  | ivf (hdr : IndexHeader) (nprobe : Nat) (nlist : Nat) (own_fields : Bool)
      (quantizer : Index)
  | idmap (hdr : IndexHeader) (own_fields : Bool) (index : Index) (id_map : List Int)
  | other (hdr : IndexHeader) (kind : String)
  deriving DecidableEq, Repr

/-- The parameter names the injector recognises (`knn_jni::NPROBES` and so on, constants
declared outside this file). -/
def NPROBES : String := "nprobes"
/-- Key of the nested parameter set of the coarse quantizer. -/
def COARSE_QUANTIZER : String := "coarse_quantizer"
/-- Key of the construction breadth. -/
def EF_CONSTRUCTION : String := "ef_construction"
/-- Key of the search breadth. -/
def EF_SEARCH : String := "ef_search"

/-- The two conversions of `JNIUtilInterface` the injector uses, over an arbitrary type
`J` of Java objects. A `std::unordered_map<std::string, jobject>` is its lookup function. -/
structure JNIUtil (J : Type) where
  ConvertJavaObjectToCppInteger : J → Int
  ConvertJavaMapToCppMap : J → (String → Option J)

/-- The parameter injector `SetExtraParameters<INDEX, IVF, HNSW>`. The assignment to
`nprobe` converts the `int` to `size_t`. -/
def SetExtraParameters {J : Type} (jniUtil : JNIUtil J) :
    (String → Option J) → Index → Index
  | parametersCpp, .ivf hdr nprobe nlist own_fields quantizer =>
    let nprobe1 :=
      match parametersCpp NPROBES with
      | some value => toUInt64 (jniUtil.ConvertJavaObjectToCppInteger value)
      | none => nprobe
    let quantizer1 :=
      match parametersCpp COARSE_QUANTIZER with
      | some value =>
        if quantizer ≠ .null then
          SetExtraParameters jniUtil (jniUtil.ConvertJavaMapToCppMap value) quantizer
        else quantizer
      | none => quantizer
    .ivf hdr nprobe1 nlist own_fields quantizer1
  | parametersCpp, .hnsw hdr efConstruction efSearch graph own_fields storage =>
    let efConstruction1 :=
      match parametersCpp EF_CONSTRUCTION with
      | some value => jniUtil.ConvertJavaObjectToCppInteger value
      | none => efConstruction
    let efSearch1 :=
      match parametersCpp EF_SEARCH with
      | some value => jniUtil.ConvertJavaObjectToCppInteger value
      | none => efSearch
    .hnsw hdr efConstruction1 efSearch1 graph own_fields storage
  | _, index => index

/-- The header of the object a pointer points to; a null pointer and a pointer into
foreign memory have none in the tree. -/
def Index.header : Index → Option IndexHeader
  | .null => none
  | .foreign _ => none
  | .flat f => some f.hdr
  | .hnsw hdr _ _ _ _ _ => some hdr
  | .ivf hdr _ _ _ _ => some hdr
  | .idmap hdr _ _ _ => some hdr
  | .other hdr _ => some hdr

/-- Message of the training check. -/
def NOT_TRAINED : String := "Index is not trained"

/-- Modelled from the spec: the constructor behind `faissMethods->indexIdMap`, which is
declared outside this file. The identifier map wraps the index, takes over its header and
holds no identifiers; it does not yet own the index. -/
def FaissMethods.indexIdMap (index : Index) (hdr : IndexHeader) : Index :=
  .idmap hdr false index []

/-- The assignment `idMap->own_fields = true`. -/
def setOwnFields : Index → Index
  | .idmap hdr _ index id_map => .idmap hdr true index id_map
  | index => index

/-- Message of the `std::length_error` thrown by `std::vector::reserve`. -/
def RESERVE_FAILED : String := "vector::reserve"

/-- The statement `codes.reserve(code_size * numVectors)`, the product taken in `size_t`.
`reserveOk n` tells whether the allocator grants a capacity of `n` bytes (it never does
beyond the vector's maximum size); when it does not, `reserve` throws. The capacity
itself is not part of the index model. -/
def reserveCodes (reserveOk : Nat → Bool) (code_size numVectors : Nat) : Outcome Unit :=
  if reserveOk (code_size * numVectors % 2 ^ 64) then .ok () else .throws RESERVE_FAILED

/-- Pre-sizing `IndexService::allocIndex`. The casts to `IndexHNSWSQ` and
`IndexScalarQuantizer` are to classes the tree type does not distinguish: `sqCodeSize
index` is `some code_size` when `index` is an `IndexHNSWSQ` whose storage is an
`IndexScalarQuantizer` of that code size. The code size of a flat index is
`sizeof(float) * d`. -/
def IndexService.allocIndex (reserveOk : Nat → Bool) (sqCodeSize : Index → Option Nat)
    (index : Index) (_dim numVectors : Nat) : Outcome Unit :=
  (match sqCodeSize index with
    | some code_size => reserveCodes reserveOk code_size numVectors
    | none => .ok ()).bind fun _ =>
  match index with
  | .hnsw _ _ _ _ _ (.flat indexFlat) => reserveCodes reserveOk (4 * indexFlat.hdr.d) numVectors
  | _ => .ok ()

/-- Pre-sizing `BinaryIndexService::allocIndex`: on an HNSW index the storage is cast to a
flat index and used without a null check, `xb.reserve(dim * numVectors / 8)`. -/
def BinaryIndexService.allocIndex (reserveOk : Nat → Bool) (index : Index)
    (dim numVectors : Nat) : Outcome Unit :=
  match index with
  | .hnsw _ _ _ _ _ (.flat _) =>
    if reserveOk (dim * numVectors % 2 ^ 64 / 8) then .ok () else .throws RESERVE_FAILED
  | .hnsw _ _ _ _ _ _ => .undefined
  | _ => .ok ()

/-- Pre-sizing `ByteIndexService::allocIndex`: only the scalar-quantized HNSW shape. -/
def ByteIndexService.allocIndex (reserveOk : Nat → Bool) (sqCodeSize : Index → Option Nat)
    (index : Index) (_dim numVectors : Nat) : Outcome Unit :=
  match sqCodeSize index with
  | some code_size => reserveCodes reserveOk code_size numVectors
  | none => .ok ()

/-- The steps of `initIndex` in the order they are taken. -/
inductive InitStep where
  | injected
  | trainedChecked
  | wrapped
  | presized
  deriving DecidableEq, Repr

/-- The steps of `initIndex` after the factory call, shared by the float, binary and byte
services: inject the parameters, check the trained flag, wrap in an identifier map that
owns the index, pre-size the storage (`allocIndex`, given as the effect of the call on
the wrapped index). The result is how the call ended, with the object the returned
handle points to, and the steps taken. When `allocIndex` throws, the identifier map
already owns the index that the local `unique_ptr` has not yet released, so unwinding
deletes the index twice: undefined. The thread hint only sets the OpenMP thread count. -/
def initIndexFrom {J : Type} (jniUtil : JNIUtil J) (parameters : String → Option J)
    (allocIndex : Index → Outcome Unit) (created : Index) : Outcome Index × List InitStep :=
  let index := SetExtraParameters jniUtil parameters created
  match index.header with
  | none => (.undefined, [.injected])
  | some hdr =>
    if !hdr.is_trained then (.throws NOT_TRAINED, [.injected, .trainedChecked])
    else
      match allocIndex index with
      | .ok _ =>
        (.ok (setOwnFields (FaissMethods.indexIdMap index hdr)),
          [.injected, .trainedChecked, .wrapped, .presized])
      | .throws _ => (.undefined, [.injected, .trainedChecked, .wrapped])
      | .undefined => (.undefined, [.injected, .trainedChecked, .wrapped])

/-- Float creation `IndexService::initIndex`, over the factory `faissMethods->indexFactory`.
`dim` and `numVectors` reach `allocIndex` converted to `size_t`. -/
def IndexService.initIndex {J : Type} (indexFactory : Int → String → MetricType → Outcome Index)
    (jniUtil : JNIUtil J) (reserveOk : Nat → Bool) (sqCodeSize : Index → Option Nat)
    (metric : MetricType) (indexDescription : String)
    (dim numVectors _threadCount : Int) (parameters : String → Option J) :
    Outcome Index × List InitStep :=
  match indexFactory dim indexDescription metric with
  | .ok created =>
    initIndexFrom jniUtil parameters
      (fun index => IndexService.allocIndex reserveOk sqCodeSize index (toUInt64 dim)
        (toUInt64 numVectors)) created
  | .throws e => (.throws e, [])
  | .undefined => (.undefined, [])

/-- Binary creation `BinaryIndexService::initIndex`, over `faissMethods->indexBinaryFactory`,
which takes no metric. The argument of `allocIndex` is
`dynamic_cast<faiss::Index *>(idMap->index)`, a cast of a binary index to the unrelated
float hierarchy: the null pointer. -/
def BinaryIndexService.initIndex {J : Type} (indexBinaryFactory : Int → String → Outcome Index)
    (jniUtil : JNIUtil J) (reserveOk : Nat → Bool)
    (_metric : MetricType) (indexDescription : String)
    (dim numVectors _threadCount : Int) (parameters : String → Option J) :
    Outcome Index × List InitStep :=
  match indexBinaryFactory dim indexDescription with
  | .ok created =>
    initIndexFrom jniUtil parameters
      (fun _ => BinaryIndexService.allocIndex reserveOk .null (toUInt64 dim)
        (toUInt64 numVectors)) created
  | .throws e => (.throws e, [])
  | .undefined => (.undefined, [])

/-- Byte creation `ByteIndexService::initIndex`, over the factory `faissMethods->indexFactory`. -/
def ByteIndexService.initIndex {J : Type} (indexFactory : Int → String → MetricType → Outcome Index)
    (jniUtil : JNIUtil J) (reserveOk : Nat → Bool) (sqCodeSize : Index → Option Nat)
    (metric : MetricType) (indexDescription : String)
    (dim numVectors _threadCount : Int) (parameters : String → Option J) :
    Outcome Index × List InitStep :=
  match indexFactory dim indexDescription metric with
  | .ok created =>
    initIndexFrom jniUtil parameters
      (fun index => ByteIndexService.allocIndex reserveOk sqCodeSize index (toUInt64 dim)
        (toUInt64 numVectors)) created
  | .throws e => (.throws e, [])
  | .undefined => (.undefined, [])

/-- An index tree with every field the injector may assign blanked out: the probe count of
IVF nodes, the two breadths of HNSW nodes, recursively through coarse quantizers. Two
trees with the same skeleton differ in those fields only. -/
def Index.skeleton : Index → Index
  | .ivf hdr _ nlist own_fields quantizer => .ivf hdr 0 nlist own_fields quantizer.skeleton
  | .hnsw hdr _ _ graph own_fields storage => .hnsw hdr 0 0 graph own_fields storage
  | index => index

/-- A conversion table over Java objects that are plain integers: an integer converts
to itself, and as a nested map it offers the probe count `7`. -/
def sampleJNIUtil : JNIUtil Int where
  ConvertJavaObjectToCppInteger := fun v => v
  ConvertJavaMapToCppMap := fun _ => fun key => if key = NPROBES then some 7 else none

/-- A header of a trained index of dimension 4 holding no vectors. -/
def sampleHeader : IndexHeader := { d := 4, ntotal := 0, is_trained := true, metric_type := 0 }

/-- An untrained IVF index over a flat quantizer. -/
def sampleUntrainedIVF : Index :=
  .ivf { sampleHeader with is_trained := false } 1 4 true (.flat ⟨sampleHeader, []⟩)

/-- A trained HNSW index over empty flat storage. -/
def sampleHNSW : Index :=
  .hnsw sampleHeader 40 16 [] true (.flat ⟨sampleHeader, []⟩)

/-! ### Reconstruction and persistence -/

/-- The observable steps of reconstruction and persistence, in the order they happen. -/
inductive Event where
  | attached (addr : Int)
  | serialized (tree : Index)
  | flushed
  | deleted (addr : Int)
  | detached
  | destroyed (tree : Index)
  deriving DecidableEq, Repr

/-- What a call can observe and change outside its own locals: the flat indexes allocated
outside any tree (by address), the identifier maps behind the handles given out (by
address), the bytes the output writer has received, and the record of events. -/
structure World where
  heap : List (Int × IndexFlat)
  handles : List (Int × Index)
  sink : List Nat
  trace : List Event
  deriving DecidableEq, Repr

/-- Append an event to the record. -/
def World.log (w : World) (e : Event) : World := { w with trace := w.trace ++ [e] }

/-- The statement `delete p` for a pointer to an externally allocated flat index. Deleting
what is not allocated is undefined. -/
def World.deleteForeign (w : World) (addr : Int) : Outcome World :=
  match w.heap.lookup addr with
  | some _ => .ok { w with heap := w.heap.filter (fun e => e.1 != addr),
                           trace := w.trace ++ [.deleted addr] }
  | none => .undefined

/-- Modelled from the spec: the destructor run by `delete` on an index pointer, which is
outside this file. `delete nullptr` does nothing; an identifier map, an HNSW graph or an
IVF index destroys the index it holds when it owns it (`own_fields`). -/
def Index.destroy : Index → World → Outcome World
  | .null, w => .ok w
  | .foreign addr, w => w.deleteForeign addr
  | .flat _, w => .ok w
  | .hnsw _ _ _ _ own_fields storage, w => if own_fields then storage.destroy w else .ok w
  | .ivf _ _ _ own_fields quantizer, w => if own_fields then quantizer.destroy w else .ok w
  | .idmap _ own_fields index _, w => if own_fields then index.destroy w else .ok w
  | .other _ _, w => .ok w

/-- The tree a reader of the pointers sees: pointers into foreign memory are followed.
`none` when such a pointer dangles. -/
def Index.resolve (heap : List (Int × IndexFlat)) : Index → Option Index
  | .foreign addr => (heap.lookup addr).map .flat
  | .hnsw hdr efConstruction efSearch graph own_fields storage =>
    (storage.resolve heap).map (.hnsw hdr efConstruction efSearch graph own_fields)
  | .ivf hdr nprobe nlist own_fields quantizer =>
    (quantizer.resolve heap).map (.ivf hdr nprobe nlist own_fields)
  | .idmap hdr own_fields index id_map =>
    (index.resolve heap).map (fun i => .idmap hdr own_fields i id_map)
  | index => some index

/-- A tree all of whose parts are its own: no pointer into foreign memory. -/
def Index.closed : Index → Bool
  | .foreign _ => false
  | .hnsw _ _ _ _ _ storage => storage.closed
  | .ivf _ _ _ _ quantizer => quantizer.closed
  | .idmap _ _ index _ => index.closed
  | _ => true

/-- Leaving a scope by exception while `graph_index` holds `tree`: the `unique_ptr`
destroys the tree, then the exception propagates. -/
def unwind (what : String) (tree : Index) (w : World) : Outcome Unit × World :=
  match tree.destroy (w.log (.destroyed tree)) with
  | .ok w1 => (.throws what, w1)
  | .throws e => (.throws e, w)
  | .undefined => (.undefined, w)

/-- Messages of the exceptions of `indexReconstruct`. -/
def DESERIALIZE_FAILED : String := "Failed to deserialize FAISS index from input buffer"
/-- Message of the top-level shape check. -/
def EXPECTED_IDMAP : String := "Expected IndexIDMap as top-level index"
/-- Message of the inner shape check. -/
def EXPECTED_HNSW : String := "Expected IndexHNSW as inner index of IDMap"
/-- Message of the flat-storage handle check. -/
def INVALID_FLAT_POINTER : String := "Invalid IndexFlat pointer passed in"

/-- The part of `indexReconstruct` from the attachment `hnsw->storage = flat` on, for a
tree already validated as an identifier map over an HNSW graph. The storage the graph
held before is overwritten without being destroyed. `write_index` gives the bytes the
serializer emits for the tree it sees and how it ends. -/
def IndexService.attachAndSerialize (write_index : Index → List Nat × Outcome Unit)
    (indexPtr : Int) (hdr : IndexHeader) (own_fields : Bool) (id_map : List Int)
    (hhdr : IndexHeader) (efConstruction efSearch : Int) (graph : List (List Nat))
    (hown : Bool) (w : World) : Outcome Unit × World :=
  let attached : Index :=
    .idmap hdr own_fields (.hnsw hhdr efConstruction efSearch graph hown (.foreign indexPtr)) id_map
  let w1 := w.log (.attached indexPtr)
  match attached.resolve w1.heap with
  | none => (.undefined, w1)
  | some seen =>
    let w2 := { w1 with sink := w1.sink ++ (write_index seen).1 }.log (.serialized seen)
    match (write_index seen).2 with
    | .throws e => unwind e attached w2
    | .undefined => (.undefined, w2)
    | .ok _ =>
      match w2.deleteForeign indexPtr with
      | .throws e => unwind e attached w2
      | .undefined => (.undefined, w2)
      | .ok w3 =>
        let detached : Index :=
          .idmap hdr own_fields (.hnsw hhdr efConstruction efSearch graph hown .null) id_map
        let w4 := (w3.log .detached).log (.destroyed detached)
        match detached.destroy w4 with
        | .ok w5 => (.ok (), w5)
        | .throws e => (.throws e, w4)
        | .undefined => (.undefined, w4)

/-- Reconstruction `IndexService::indexReconstruct`: how the call ended and the world it
left. `read_index` is the deserializer. The diagnostic log file is not part of the
world; writing it reads the flat index through `indexPtr`, which is undefined when
nothing is allocated there. -/
def IndexService.indexReconstruct (read_index : List Nat → Outcome Index)
    (write_index : Index → List Nat × Outcome Unit)
    (inputBuffer : List Nat) (indexPtr : Int) (w : World) : Outcome Unit × World :=
  match read_index inputBuffer with
  | .throws e => (.throws e, w)
  | .undefined => (.undefined, w)
  | .ok .null => (.throws DESERIALIZE_FAILED, w)
  | .ok (.idmap hdr own_fields (.hnsw hhdr efConstruction efSearch graph hown storage) id_map) =>
    if indexPtr = 0 ∨ indexPtr = -1 then
      unwind INVALID_FLAT_POINTER
        (.idmap hdr own_fields (.hnsw hhdr efConstruction efSearch graph hown storage) id_map) w
    else
      match w.heap.lookup indexPtr with
      | none => (.undefined, w)
      | some _ =>
        IndexService.attachAndSerialize write_index indexPtr hdr own_fields id_map hhdr
          efConstruction efSearch graph hown w
  | .ok (.idmap hdr own_fields index id_map) =>
    unwind EXPECTED_HNSW (.idmap hdr own_fields index id_map) w
  | .ok graph_index => unwind EXPECTED_IDMAP graph_index w

/-- A flat index holding the two vectors `[1,0,0,0]` and `[0,1,0,0]`. -/
def sampleFlat : IndexFlat :=
  ⟨{ sampleHeader with ntotal := 2 }, [1, 0, 0, 0, 0, 1, 0, 0]⟩

/-- A deserialized graph-only index: identifier map over an HNSW graph with empty storage. -/
def sampleGraphTree : Index :=
  .idmap { sampleHeader with ntotal := 2 } true
    (.hnsw { sampleHeader with ntotal := 2 } 40 16 [[1], [0]] true
      (.flat ⟨sampleHeader, []⟩)) [10, 11]

/-- A deserializer that knows three buffers: a graph-only index, a bare flat index, and an
identifier map over a flat index. -/
def sampleReader (buffer : List Nat) : Outcome Index :=
  if buffer = [1] then .ok sampleGraphTree
  else if buffer = [2] then .ok (.flat sampleFlat)
  else if buffer = [3] then .ok (.idmap sampleHeader true (.flat sampleFlat) [])
  else .throws "read error"

/-- A serializer that emits the vector count of the graph's storage and ends normally. -/
def sampleWriter : Index → List Nat × Outcome Unit
  | .idmap _ _ (.hnsw _ _ _ _ _ (.flat f)) _ => ([f.hdr.ntotal], .ok ())
  | _ => ([], .ok ())

/-- A world in which one flat index is allocated, at address 4096. -/
def sampleWorld : World :=
  { heap := [(4096, sampleFlat)], handles := [(8192, sampleGraphTree)], sink := [], trace := [] }

/-- Message of the one error `writeIndex` signals. -/
def WRITE_FAILED : String := "Failed to write index to disk"

/-- The body of the `try` block of `writeIndex`: serialize through the writer, then flush
when the writer is a `FaissOpenSearchIOWriter`. `serialize` gives the bytes emitted and
how serialization ended, `flush` how a flush of the bytes received so far ends. -/
def writeIndexTry (serialize : Index → List Nat × Outcome Unit)
    (flush : List Nat → Outcome Unit) (isOpenSearchIOWriter : Bool) (seen : Index)
    (w : World) : Outcome Unit × World :=
  let w1 := { w with sink := w.sink ++ (serialize seen).1 }.log (.serialized seen)
  match (serialize seen).2 with
  | .ok _ => if isOpenSearchIOWriter then (flush w1.sink, w1.log .flushed) else (.ok (), w1)
  | .throws e => (.throws e, w1)
  | .undefined => (.undefined, w1)

/-- The `catch (std::exception &e)` clause: whatever was thrown is replaced by the one
persistence error. Exceptions are modelled by their message; all are `std::exception`s. -/
def catchAsWriteFailed : Outcome Unit → Outcome Unit
  | .throws _ => .throws WRITE_FAILED
  | r => r

/-- The three `writeIndex` functions share this body: take ownership of the identifier
map behind the handle, run the `try` block, translate an exception, and on leaving the
scope destroy the identifier map. A handle behind which no identifier map lives makes
the access undefined. -/
def writeIndexWith (serialize : Index → List Nat × Outcome Unit)
    (flush : List Nat → Outcome Unit) (isOpenSearchIOWriter : Bool) (idMapAddress : Int)
    (w : World) : Outcome Unit × World :=
  match w.handles.lookup idMapAddress with
  | none => (.undefined, w)
  | some idMap =>
    match idMap.resolve w.heap with
    | none => (.undefined, w)
    | some seen =>
      match writeIndexTry serialize flush isOpenSearchIOWriter seen w with
      | (.undefined, w2) => (.undefined, w2)
      | (r, w2) =>
        let w3 := { w2 with handles := w2.handles.filter (fun e => e.1 != idMapAddress) }.log
          (.destroyed idMap)
        match idMap.destroy w3 with
        | .ok w4 => (catchAsWriteFailed r, w4)
        | .throws e => (.throws e, w3)
        | .undefined => (.undefined, w3)

/-- Persistence `IndexService::writeIndex`, over `faissMethods->writeIndex`. -/
def IndexService.writeIndex (writeIndex : Index → List Nat × Outcome Unit)
    (flush : List Nat → Outcome Unit) (isOpenSearchIOWriter : Bool) (idMapAddress : Int)
    (w : World) : Outcome Unit × World :=
  writeIndexWith writeIndex flush isOpenSearchIOWriter idMapAddress w

/-- Persistence `BinaryIndexService::writeIndex`, over `faissMethods->writeIndexBinary`. -/
def BinaryIndexService.writeIndex (writeIndexBinary : Index → List Nat × Outcome Unit)
    (flush : List Nat → Outcome Unit) (isOpenSearchIOWriter : Bool) (idMapAddress : Int)
    (w : World) : Outcome Unit × World :=
  writeIndexWith writeIndexBinary flush isOpenSearchIOWriter idMapAddress w

/-- Persistence `ByteIndexService::writeIndex`, over `faissMethods->writeIndex`. -/
def ByteIndexService.writeIndex (writeIndex : Index → List Nat × Outcome Unit)
    (flush : List Nat → Outcome Unit) (isOpenSearchIOWriter : Bool) (idMapAddress : Int)
    (w : World) : Outcome Unit × World :=
  writeIndexWith writeIndex flush isOpenSearchIOWriter idMapAddress w

/-- The contract of persistence for one call that ended as `result`, on a live handle
behind which `idMap` lives: the call returns normally exactly when serialization
succeeds and, for a flush-capable writer, the flush succeeds; a failure of either is
signalled as the one persistence error; and when serialization succeeded on a
flush-capable writer, the events added begin with the serialization followed by the
flush, and there is exactly one flush among them. -/
def PersistenceContract (serialize : Index → List Nat × Outcome Unit)
    (flush : List Nat → Outcome Unit) (isOpenSearchIOWriter : Bool) (w : World)
    (idMap : Index) (result : Outcome Unit × World) : Prop :=
  (result.1 = .ok () ↔
    (serialize idMap).2 = .ok () ∧
      (isOpenSearchIOWriter = true → flush (w.sink ++ (serialize idMap).1) = .ok ())) ∧
  (∀ e, (serialize idMap).2 = .throws e → result.1 = .throws WRITE_FAILED) ∧
  (∀ e, (serialize idMap).2 = .ok () → isOpenSearchIOWriter = true →
    flush (w.sink ++ (serialize idMap).1) = .throws e → result.1 = .throws WRITE_FAILED) ∧
  ((serialize idMap).2 = .ok () → isOpenSearchIOWriter = true →
    (∃ rest, result.2.trace = w.trace ++ [.serialized idMap, .flushed] ++ rest) ∧
    (List.drop w.trace.length result.2.trace).count .flushed = 1)

/-- The chunk sizes that cover `n` vectors in chunks of 1000: full chunks, then the
remainder when there is one. -/
def chunkSizes (n : Nat) : List Nat :=
  List.replicate (n / 1000) 1000 ++ (if n % 1000 = 0 then [] else [n % 1000])

/-- Invariant of the chunking loop on the record of library calls: the calls so far cover
the first `id` vectors, and while vectors remain the step is still 1000 and `id` is a
multiple of it. -/
def CallsInv (n : Nat) (s : ByteLoopState) : Prop :=
  s.id ≤ n ∧ s.addCalls = chunkSizes s.id ∧
  (s.id < n → s.batchSize = 1000 ∧ s.id % 1000 = 0)

/-! ### Flat index population -/

/-- Messages of the exceptions of `addVectorsToFlatIndex`. -/
def INDEX_POINTER_NULL : String := "Index pointer cannot be null"
/-- Message of the null check on the vector array. -/
def INPUT_VECTORS_NULL : String := "Input vectors cannot be null"
/-- Message of the check on the two counts. -/
def INVALID_COUNTS : String := "Invalid numVectors or dim"
/-- Message of the dimension check. -/
def DIMENSION_MISMATCH : String := "Vector dimension mismatch"

/-- Modelled from the spec: the library insertion `index->add(n, x)` of a flat index, which
is outside this file. Insertion is append-only: the first `n` vectors found at `x`, each
`d` elements wide, are appended to the stored elements and the count grows by `n`.
Reading past the array is undefined. -/
def IndexFlat.add (f : IndexFlat) (n : Nat) (x : List ℚ) : Outcome IndexFlat :=
  if x.length < n * f.hdr.d then .undefined
  else .ok { hdr := { f.hdr with ntotal := f.hdr.ntotal + n },
             codes := f.codes ++ x.take (n * f.hdr.d) }

/-- The world after the flat index allocated at `addr` has been changed in place to `f`. -/
def World.storeFlat (w : World) (addr : Int) (f : IndexFlat) : World :=
  { w with heap := w.heap.map (fun e => if e.1 == addr then (addr, f) else e) }

/-- Flat population `IndexService::addVectorsToFlatIndex`: how the call ended and the
world it left. The array pointer `vectors` is `none` when null. Reading the index
through a handle behind which nothing is allocated is undefined. The diagnostic log
file is not part of the world. -/
def IndexService.addVectorsToFlatIndex (indexPtr : Int) (numVectors dim : Int)
    (vectors : Option (List ℚ)) (w : World) : Outcome Unit × World :=
  if indexPtr ≤ 0 then (.throws INDEX_POINTER_NULL, w)
  else
    match vectors with
    | none => (.throws INPUT_VECTORS_NULL, w)
    | some x =>
      if numVectors ≤ 0 ∨ dim ≤ 0 then (.throws INVALID_COUNTS, w)
      else
        match w.heap.lookup indexPtr with
        | none => (.undefined, w)
        | some index =>
          if (index.hdr.d : Int) ≠ dim then (.throws DIMENSION_MISMATCH, w)
          else
            match index.add numVectors.toNat x with
            | .ok added => (.ok (), w.storeFlat indexPtr added)
            | .throws e => (.throws e, w)
            | .undefined => (.undefined, w)

/-- What it means for a `writeIndex` call that ended as `result` to have consumed the
handle `idMapAddress` behind which `idMap` lived: the call ended in a defined way, no
identifier map lives behind the handle any more, the last recorded event is the
destruction of `idMap`, and a further `writeIndex` call on the handle, with whatever
serializer and writer, is undefined and raises no error. -/
def HandleConsumed (idMapAddress : Int) (idMap : Index) (result : Outcome Unit × World) :
    Prop :=
  result.1 ≠ .undefined ∧
  result.2.handles.lookup idMapAddress = none ∧
  result.2.trace.getLast? = some (.destroyed idMap) ∧
  ∀ (serialize : Index → List Nat × Outcome Unit) (flush : List Nat → Outcome Unit)
    (isOpenSearchIOWriter : Bool),
    IndexService.writeIndex serialize flush isOpenSearchIOWriter idMapAddress result.2
      = (.undefined, result.2)

/-- An allocator that grants every capacity up to the maximum size of a byte vector,
`2^63 - 1`, and nothing beyond. -/
def sampleReserve (n : Nat) : Bool := decide (n ≤ 9223372036854775807)

/-- A class table without scalar-quantized HNSW indexes. -/
def noScalarQuantizer (_index : Index) : Option Nat := none

/-! ## Theorems -/

theorem Outcome.bind_eq {α β : Type} (x : Outcome α) (f : α → Outcome β) :
    (x >>= f) = x.bind f := rfl

theorem Outcome.pure_eq {α : Type} (v : α) : (pure v : Outcome α) = Outcome.ok v := rfl

/-- Unfolding of a counted loop by its last iteration. -/
theorem foldlM_range_succ {σ : Type} (f : σ → Nat → Outcome σ) (s : σ) (k : Nat) :
    (List.range (k + 1)).foldlM f s = ((List.range k).foldlM f s).bind (fun t => f t k) := by
  rw [List.range_succ, List.foldlM_append]
  simp [Outcome.bind_eq, Outcome.pure_eq]
  congr 1
  funext t
  cases f t k <;> rfl

theorem convertElement_ok (dim i : Nat) (inputVectors : List Int) (S len : Nat)
    (idbuf : List Int) (s : ByteBatchState) (j : Nat)
    (hin : S + (i * dim + j) < inputVectors.length) (hbuf : i * dim + j < len)
    (h : ChunkInv inputVectors S (i * dim + j) len idbuf s) :
    ∃ t, ByteIndexService.convertElement dim i inputVectors s j = .ok t ∧
      ChunkInv inputVectors S (i * dim + j + 1) len idbuf t := by
  obtain ⟨h1, h2, h3, h4⟩ := h
  have hlt : s.iter < inputVectors.length := by omega
  refine ⟨{ s with
      iter := s.iter + 1
      inputFloatVectors :=
        s.inputFloatVectors.set (i * dim + j) (static_cast_float (inputVectors[s.iter])) }, ?_, ?_⟩
  · unfold ByteIndexService.convertElement
    rw [List.getElem?_eq_getElem hlt]
    simp only [h2, hbuf, if_true]
  · refine ⟨by simp; omega, by simp [h2], h3, ?_⟩
    intro p hp
    simp only
    by_cases hpe : p = i * dim + j
    · subst hpe
      rw [List.getElem?_set_self (by omega)]
      have : S + (i * dim + j) = s.iter := by omega
      simp [this, List.getElem?_eq_getElem hlt]
    · rw [List.getElem?_set_ne (by omega)]
      exact h4 p (by omega)

theorem convertRow_ok (dim i : Nat) (inputVectors : List Int) (S len : Nat)
    (idbuf : List Int) (s : ByteBatchState) (k : Nat) (hk : k ≤ dim)
    (hin : S + (i * dim + dim) ≤ inputVectors.length) (hbuf : i * dim + dim ≤ len)
    (h : ChunkInv inputVectors S (i * dim) len idbuf s) :
    ∃ t, (List.range k).foldlM (ByteIndexService.convertElement dim i inputVectors) s = .ok t ∧
      ChunkInv inputVectors S (i * dim + k) len idbuf t := by
  induction k with
  | zero => exact ⟨s, rfl, h⟩
  | succ k ih =>
    obtain ⟨t, ht, hinv⟩ := ih (by omega)
    obtain ⟨u, hu, huinv⟩ := convertElement_ok dim i inputVectors S len idbuf t k
      (by omega) (by omega) hinv
    exact ⟨u, by rw [foldlM_range_succ, ht]; exact hu, huinv⟩

theorem convertVector_ok (dim : Nat) (inputVectors ids : List Int) (S id len idlen i : Nat)
    (s : ByteBatchState) (hi : i < idlen) (hid : id + i < ids.length)
    (hin : S + (i * dim + dim) ≤ inputVectors.length) (hbuf : i * dim + dim ≤ len)
    (h : BatchInv dim inputVectors ids S id len idlen i s) :
    ∃ t, ByteIndexService.convertVector dim id inputVectors ids s i = .ok t ∧
      BatchInv dim inputVectors ids S id len idlen (i + 1) t := by
  obtain ⟨⟨h1, h2, _, h4⟩, h5, h6⟩ := h
  have hstart : ChunkInv inputVectors S (i * dim) len (s.floatVectorsIds.set i (ids[id + i]))
      { s with floatVectorsIds := s.floatVectorsIds.set i (ids[id + i]) } :=
    ⟨h1, h2, rfl, h4⟩
  obtain ⟨t, ht, ht1, ht2, ht3, ht4⟩ := convertRow_ok dim i inputVectors S len _ _ dim
    (Nat.le_refl _) hin hbuf hstart
  refine ⟨t, ?_, ⟨?_, ?_, rfl, ?_⟩, ?_, ?_⟩
  · unfold ByteIndexService.convertVector
    rw [List.getElem?_eq_getElem hid]
    simp only [h5, hi, if_true]
    exact ht
  · rw [ht1, Nat.succ_mul]
  · exact ht2
  · intro p hp
    exact ht4 p (by rw [Nat.succ_mul] at hp; exact hp)
  · rw [ht3]; simp [h5]
  · intro q hq
    rw [ht3]
    by_cases hqe : q = i
    · subst hqe
      rw [List.getElem?_set_self (by omega), List.getElem?_eq_getElem hid]
    · rw [List.getElem?_set_ne (by omega)]
      exact h6 q (by omega)

theorem convertBatch_prefix_ok (dim : Nat) (inputVectors ids : List Int)
    (S id len idlen b : Nat) (s : ByteBatchState) (k : Nat) (hk : k ≤ b)
    (hb : b ≤ idlen) (hid : id + b ≤ ids.length)
    (hin : S + b * dim ≤ inputVectors.length) (hbuf : b * dim ≤ len)
    (h : BatchInv dim inputVectors ids S id len idlen 0 s) :
    ∃ t, (List.range k).foldlM (ByteIndexService.convertVector dim id inputVectors ids) s
        = .ok t ∧ BatchInv dim inputVectors ids S id len idlen k t := by
  induction k with
  | zero => exact ⟨s, rfl, h⟩
  | succ k ih =>
    obtain ⟨t, ht, hinv⟩ := ih (by omega)
    have hmul : k * dim + dim ≤ b * dim := by
      have := Nat.mul_le_mul_right dim (show k + 1 ≤ b from hk)
      rw [Nat.succ_mul] at this
      exact this
    obtain ⟨u, hu, huinv⟩ := convertVector_ok dim inputVectors ids S id len idlen k t
      (by omega) (by omega) (by omega) (by omega) hinv
    exact ⟨u, by rw [foldlM_range_succ, ht]; exact hu, huinv⟩

/-- After a chunk of `b` vectors has been converted, the first `b * dim` elements of the
float buffer are the widened input elements of the chunk and the first `b` identifiers
of the identifier buffer are the chunk's identifiers. -/
theorem convertBatch_ok (dim : Nat) (inputVectors ids : List Int)
    (id len idlen b : Nat) (s : ByteBatchState)
    (hb : b ≤ idlen) (hid : id + b ≤ ids.length)
    (hin : s.iter + b * dim ≤ inputVectors.length) (hbuf : b * dim ≤ len)
    (hlen : s.inputFloatVectors.length = len) (hidlen : s.floatVectorsIds.length = idlen) :
    ∃ t, ByteIndexService.convertBatch dim id b inputVectors ids s = .ok t ∧
      t.iter = s.iter + b * dim ∧ t.inputFloatVectors.length = len ∧
      t.floatVectorsIds.length = idlen ∧
      t.inputFloatVectors.take (b * dim)
        = ((inputVectors.drop s.iter).take (b * dim)).map static_cast_float ∧
      t.floatVectorsIds.take b = (ids.drop id).take b := by
  have h0 : BatchInv dim inputVectors ids s.iter id len idlen 0 s :=
    ⟨⟨by simp, hlen, rfl, by intro p hp; simp at hp⟩, hidlen, by intro q hq; omega⟩
  obtain ⟨t, ht, ⟨h1, h2, _, h4⟩, h5, h6⟩ := convertBatch_prefix_ok dim inputVectors ids
    s.iter id len idlen b s b (Nat.le_refl _) hb hid hin hbuf h0
  refine ⟨t, ht, h1, h2, h5, ?_, ?_⟩
  · apply List.ext_getElem?
    intro p
    by_cases hp : p < b * dim
    · rw [List.getElem?_take_of_lt hp, h4 p hp, List.getElem?_map,
        List.getElem?_take_of_lt hp, List.getElem?_drop]
    · have e1 : (List.take (b * dim) t.inputFloatVectors).length ≤ p := by
        rw [List.length_take]; omega
      have e2 : (List.map static_cast_float
          (List.take (b * dim) (List.drop s.iter inputVectors))).length ≤ p := by
        rw [List.length_map, List.length_take]; omega
      rw [List.getElem?_eq_none e1, List.getElem?_eq_none e2]
  · apply List.ext_getElem?
    intro q
    by_cases hq : q < b
    · rw [List.getElem?_take_of_lt hq, h6 q hq, List.getElem?_take_of_lt hq,
        List.getElem?_drop]
    · have e1 : (List.take b t.floatVectorsIds).length ≤ q := by
        rw [List.length_take]; omega
      have e2 : (List.take b (List.drop id ids)).length ≤ q := by
        rw [List.length_take]; omega
      rw [List.getElem?_eq_none e1, List.getElem?_eq_none e2]

theorem add_with_ids_nat {α : Type} (m : IndexIDMap α) (b : Nat) (x : List α)
    (xids : List Int) (hx : b * m.code_elems ≤ x.length) (hids : b ≤ xids.length) :
    m.add_with_ids (b : Int) x xids = .ok { m with
      xb := m.xb ++ x.take (b * m.code_elems)
      ntotal := m.ntotal + b
      id_map := m.id_map ++ xids.take b } := by
  unfold IndexIDMap.add_with_ids
  have h1 : ¬ ((b : Int) < 0) := by omega
  have h2 : ¬ (x.length < b * m.code_elems) := by omega
  have h3 : ¬ (xids.length < b) := by omega
  simp only [Int.toNat_ofNat, h1, h2, h3, if_false]

theorem appendWidened_step (dim : Nat) (inputVectors ids : List Int) (m : IndexIDMap ℚ)
    (k b : Nat) (x : List ℚ) (xids : List Int)
    (hx : x = ((inputVectors.drop (k * dim)).take (b * dim)).map static_cast_float)
    (hids : xids = (ids.drop k).take b) :
    ({ appendWidened dim inputVectors ids m k with
        xb := (appendWidened dim inputVectors ids m k).xb ++ x
        ntotal := (appendWidened dim inputVectors ids m k).ntotal + b
        id_map := (appendWidened dim inputVectors ids m k).id_map ++ xids } : IndexIDMap ℚ)
      = appendWidened dim inputVectors ids m (k + b) := by
  subst hx hids
  simp only [appendWidened, Nat.add_mul, List.take_add, List.map_append, List.append_assoc,
    Nat.add_assoc]

theorem insertLoop_ok (dim n : Nat) (inputVectors ids : List Int) (m : IndexIDMap ℚ)
    (hm : m.code_elems = dim) (hin : n * dim ≤ inputVectors.length) (hids : n ≤ ids.length)
    (fuel : Nat) (s : ByteLoopState) (hfuel : n - s.id ≤ fuel)
    (h : LoopInv dim n inputVectors ids m s) :
    ∃ t, ByteIndexService.insertLoop dim n inputVectors ids fuel s = some (.ok (), t) ∧
      t.idMap = appendWidened dim inputVectors ids m n := by
  induction fuel generalizing s with
  | zero =>
    obtain ⟨h1, _, _, _, _, _, h7⟩ := h
    have : s.id = n := by omega
    refine ⟨s, ?_, by rw [h7, this]⟩
    unfold ByteIndexService.insertLoop
    simp [this]
  | succ fuel ih =>
    obtain ⟨h1, h2, h3, h4, h5, h6, h7⟩ := h
    by_cases hlt : s.id < n
    · obtain ⟨b, hb⟩ : ∃ b, b = (if n - s.id < s.batchSize then n - s.id else s.batchSize) :=
        ⟨_, rfl⟩
      have hb1 : 1 ≤ b := by rw [hb]; split <;> omega
      have hb2 : b ≤ 1000 := by rw [hb]; split <;> omega
      have hb3 : s.id + b ≤ n := by rw [hb]; split <;> omega
      have hmul : (s.id + b) * dim ≤ n * dim := Nat.mul_le_mul_right dim hb3
      have hmul2 : b * dim ≤ 1000 * dim := Nat.mul_le_mul_right dim hb2
      rw [Nat.add_mul] at hmul
      obtain ⟨t, ht, ht1, ht2, ht3, ht4, ht5⟩ := convertBatch_ok dim inputVectors ids s.id
        (1000 * dim) 1000 b s.buffers hb2 (by omega) (by rw [h4]; omega) hmul2 h5 h6
      have hce : s.idMap.code_elems = dim := by rw [h7]; exact hm
      have hadd0 := add_with_ids_nat s.idMap b t.inputFloatVectors t.floatVectorsIds
        (by rw [hce, ht2]; exact hmul2) (by rw [ht3]; exact hb2)
      have hstep := appendWidened_step dim inputVectors ids m s.id b
        (t.inputFloatVectors.take (b * s.idMap.code_elems)) (t.floatVectorsIds.take b)
        (by rw [hce, ht4, h4]) ht5
      rw [← h7] at hstep
      have hadd := hadd0.trans (congrArg Outcome.ok hstep)
      obtain ⟨u, hu, hu2⟩ := ih
        { id := s.id + b, batchSize := b, buffers := t,
          idMap := appendWidened dim inputVectors ids m (s.id + b),
          addCalls := s.addCalls ++ [b] }
        (by simp only; omega)
        ⟨hb3, hb1, hb2, by simp only [ht1, h4, Nat.add_mul], ht2, ht3, rfl⟩
      refine ⟨u, ?_, hu2⟩
      rw [ByteIndexService.insertLoop]
      simp only [hlt, if_true, ← hb, ht, hadd]
      exact hu
    · have : s.id = n := by omega
      refine ⟨s, ?_, by rw [h7, this]⟩
      unfold ByteIndexService.insertLoop
      simp [this]

theorem toUInt64_natCast (k : Nat) (hk : k < 2 ^ 64) : toUInt64 (k : Int) = k := by
  unfold toUInt64
  have h : ((k : Int) % 2 ^ 64) = (k : Int) := Int.emod_eq_of_lt (by omega) (by omega)
  rw [h]
  exact Int.toNat_ofNat k

theorem toInt32_of_lt (k : Nat) (hk : k < 2 ^ 31) : toInt32 k = (k : Int) := by
  unfold toInt32
  have h : k % 2 ^ 32 = k := Nat.mod_eq_of_lt (by omega)
  rw [h, if_pos hk]

theorem checkCounts_same (n : Int) (hn : n ≠ 0) : checkCounts n n = .ok () := by
  unfold checkCounts
  simp [hn]

/-- The state a single library call with all `n` vectors of width `code_elems` leaves. -/
theorem insertUnchunked_eq (n : Nat) (inputVectors ids : List Int) (idMap : IndexIDMap ℚ)
    (hlen : inputVectors.length = n * idMap.code_elems) (hids : ids.length = n) :
    ByteIndexService.insertUnchunked n inputVectors ids idMap
      = (.ok (), { idMap with
          xb := idMap.xb ++ inputVectors.map static_cast_float
          ntotal := idMap.ntotal + n
          id_map := idMap.id_map ++ ids }) := by
  unfold ByteIndexService.insertUnchunked callAddWithIds
  rw [add_with_ids_nat _ _ _ _ (by simp [hlen]) (by omega)]
  have e1 : List.take (n * idMap.code_elems) (List.map static_cast_float inputVectors)
      = List.map static_cast_float inputVectors :=
    List.take_of_length_le (by simp [hlen])
  have e2 : List.take n ids = ids := List.take_of_length_le (by omega)
  rw [e1, e2]

/-- C1. Chunked byte insertion refines unchunked insertion: for a batch of `n ≥ 1`
signed-byte vectors of width `dim ≥ 1` with `n` identifiers, into an index storing
vectors of that width, `ByteIndexService::insertToIndex` returns (given fuel for `n`
loop iterations) and leaves exactly the index a single library insertion of all `n`
widened vectors with all `n` identifiers leaves: the widened elements appended to the
stored elements and the identifiers appended to the identifier list, both in input
order; widening preserves every value. The sizes are within the `int` range the source
computes in. -/
theorem byte_insertToIndex_refines_unchunked (dim n fuel : Nat) (threadCount : Int)
    (inputVectors ids : List Int) (idMap : IndexIDMap ℚ)
    (hdim : 1 ≤ dim) (hn : 1 ≤ n)
    (hlen : inputVectors.length = n * dim) (hids : ids.length = n)
    (hwidth : idMap.code_elems = dim)
    (hbuf : 1000 * (dim : Int) ≤ INT_MAX) (hcount : (n : Int) ≤ INT_MAX)
    (hfuel : n ≤ fuel) :
    ByteIndexService.insertToIndex fuel dim n threadCount inputVectors ids idMap
        = some (ByteIndexService.insertUnchunked n inputVectors ids idMap) ∧
      ByteIndexService.insertUnchunked n inputVectors ids idMap
        = (.ok (), { idMap with
            xb := idMap.xb ++ inputVectors.map static_cast_float
            ntotal := idMap.ntotal + n
            id_map := idMap.id_map ++ ids }) ∧
      ∀ b : Int, (static_cast_float b).num = b ∧ (static_cast_float b).den = 1 := by
  have hunch := insertUnchunked_eq n inputVectors ids idMap (by rw [hwidth, hlen]) hids
  refine ⟨?_, hunch, fun b => ⟨Rat.intCast_num b, Rat.intCast_den b⟩⟩
  unfold INT_MAX at hbuf hcount
  have hnv : ByteIndexService.numVectors inputVectors.length (dim : Int) = .ok (n : Int) := by
    unfold ByteIndexService.numVectors
    rw [toUInt64_natCast dim (by omega), hlen, Nat.mul_div_cancel n (by omega),
      toInt32_of_lt n (by omega)]
    have : ¬ dim = 0 := by omega
    simp only [this, if_false]
  have hinv : LoopInv dim n inputVectors ids idMap
      (ByteIndexService.initialLoopState dim idMap) := by
    refine ⟨Nat.zero_le _, ?_, ?_, ?_, ?_, ?_, ?_⟩
    · show 1 ≤ 1000
      omega
    · exact Nat.le_refl _
    · show 0 = 0 * dim
      omega
    · show (List.replicate (1000 * (dim : Int)).toNat (0 : ℚ)).length = 1000 * dim
      rw [List.length_replicate]
      omega
    · exact List.length_replicate _ _
    · show idMap = appendWidened dim inputVectors ids idMap 0
      simp [appendWidened]
  obtain ⟨t, ht, ht2⟩ := insertLoop_ok dim n inputVectors ids idMap hwidth (by omega)
    (by omega) fuel _ (by show n - 0 ≤ fuel; omega) hinv
  have hfin : appendWidened dim inputVectors ids idMap n
      = { idMap with
          xb := idMap.xb ++ inputVectors.map static_cast_float
          ntotal := idMap.ntotal + n
          id_map := idMap.id_map ++ ids } := by
    unfold appendWidened
    rw [List.take_of_length_le (by omega), List.take_of_length_le (by omega)]
  unfold ByteIndexService.insertToIndex ByteIndexService.insertToIndexTrace
  rw [hnv]
  simp only [checkCounts_same (n : Int) (by omega)]
  have hA : ¬ (INT_MAX < 1000 * (dim : Int)) := by unfold INT_MAX; omega
  have hB : ¬ (1000 * (dim : Int) < 0) := by omega
  simp only [hA, hB, if_false, Int.toNat_ofNat, ht, Option.map_some', Outcome.bind, ht2,
    hfin, hunch]

theorem int_eq_natCast_toNat (x : Int) (hx : 0 ≤ x) : x = ((x.toNat : Nat) : Int) :=
  (Int.toNat_of_nonneg hx).symm

theorem float_numVectors_eq (size : Nat) (dim : Int) (hdim : 1 ≤ dim) (hmax : dim ≤ INT_MAX)
    (hcount : ((size / dim.toNat : Nat) : Int) ≤ INT_MAX) :
    IndexService.numVectors size dim = .ok ((size / dim.toNat : Nat) : Int) := by
  unfold INT_MAX at hmax hcount
  unfold IndexService.numVectors
  have hd := int_eq_natCast_toNat dim (by omega)
  have hu : toUInt64 dim = dim.toNat := by
    rw [hd, Int.toNat_ofNat]
    exact toUInt64_natCast _ (by omega)
  rw [hu, toInt32_of_lt _ (by omega)]
  have : ¬ dim.toNat = 0 := by omega
  simp only [this, if_false]

theorem byte_numVectors_eq (size : Nat) (dim : Int) (hdim : 1 ≤ dim) (hmax : dim ≤ INT_MAX)
    (hcount : ((size / dim.toNat : Nat) : Int) ≤ INT_MAX) :
    ByteIndexService.numVectors size dim = .ok ((size / dim.toNat : Nat) : Int) :=
  float_numVectors_eq size dim hdim hmax hcount

theorem binary_numVectors_eq (size : Nat) (dim : Int) (hdim : 8 ≤ dim) (hmax : dim ≤ INT_MAX)
    (hcount : ((size / (dim.toNat / 8) : Nat) : Int) ≤ INT_MAX) :
    BinaryIndexService.numVectors size dim = .ok ((size / (dim.toNat / 8) : Nat) : Int) := by
  unfold INT_MAX at hmax hcount
  unfold BinaryIndexService.numVectors
  have hd := int_eq_natCast_toNat dim (by omega)
  have hq : Int.tdiv dim 8 = ((dim.toNat / 8 : Nat) : Int) := by
    rw [Int.tdiv_eq_ediv (by omega) (by omega)]
    omega
  have hu : toUInt64 (Int.tdiv dim 8) = dim.toNat / 8 := by
    rw [hq]
    exact toUInt64_natCast _ (by omega)
  rw [hu, toInt32_of_lt _ (by omega)]
  have : ¬ dim.toNat / 8 = 0 := by omega
  simp only [this, if_false]

theorem messages_ne : EMPTY_BATCH ≠ ID_COUNT_MISMATCH := by decide

theorem checkCounts_empty_iff (c numIds : Int) :
    checkCounts c numIds = .throws EMPTY_BATCH ↔ c = 0 := by
  unfold checkCounts
  by_cases h0 : c = 0
  · simp [h0]
  · by_cases h1 : numIds = c
    · simp [h0, h1]
    · simp [h0, h1, messages_ne.symm]

theorem checkCounts_mismatch_iff (c numIds : Int) :
    checkCounts c numIds = .throws ID_COUNT_MISMATCH ↔ c ≠ 0 ∧ numIds ≠ c := by
  unfold checkCounts
  by_cases h0 : c = 0
  · simp [h0, messages_ne]
  · by_cases h1 : numIds = c
    · simp [h0, h1]
    · simp [h0, h1]

theorem add_with_ids_ne_throws {α : Type} (m : IndexIDMap α) (n : Int) (x : List α)
    (xids : List Int) (w : String) : m.add_with_ids n x xids ≠ .throws w := by
  unfold IndexIDMap.add_with_ids
  split
  · simp
  · split
    · simp
    · split <;> simp

theorem callAddWithIds_ne_throws {α : Type} (m : IndexIDMap α) (n : Int) (x : List α)
    (xids : List Int) (w : String) : (callAddWithIds m n x xids).1 ≠ .throws w := by
  unfold callAddWithIds
  have h := add_with_ids_ne_throws m n x xids
  cases hr : m.add_with_ids n x xids with
  | ok v => simp
  | throws u => exact absurd hr (h u)
  | undefined => simp

theorem foldlM_ne_throws {σ ι : Type} (f : σ → ι → Outcome σ)
    (hf : ∀ s i w, f s i ≠ .throws w) (l : List ι) (s : σ) (w : String) :
    l.foldlM f s ≠ .throws w := by
  induction l generalizing s with
  | nil => simp [List.foldlM, Outcome.pure_eq]
  | cons a l ih =>
    rw [List.foldlM_cons, Outcome.bind_eq]
    cases hr : f s a with
    | ok v => exact ih v
    | throws u => exact absurd hr (hf s a u)
    | undefined => simp [Outcome.bind]

theorem convertElement_ne_throws (dim i : Nat) (inputVectors : List Int)
    (s : ByteBatchState) (j : Nat) (w : String) :
    ByteIndexService.convertElement dim i inputVectors s j ≠ .throws w := by
  unfold ByteIndexService.convertElement
  split
  · simp
  · split <;> simp

theorem convertVector_ne_throws (dim id : Nat) (inputVectors ids : List Int)
    (s : ByteBatchState) (i : Nat) (w : String) :
    ByteIndexService.convertVector dim id inputVectors ids s i ≠ .throws w := by
  unfold ByteIndexService.convertVector
  split
  · simp
  · split
    · exact foldlM_ne_throws _ (convertElement_ne_throws dim i inputVectors) _ _ w
    · simp

theorem convertBatch_ne_throws (dim id b : Nat) (inputVectors ids : List Int)
    (s : ByteBatchState) (w : String) :
    ByteIndexService.convertBatch dim id b inputVectors ids s ≠ .throws w :=
  foldlM_ne_throws _ (convertVector_ne_throws dim id inputVectors ids) _ _ w

/-- The chunking loop never ends in an exception: its body only converts and calls the
library insertion. -/
theorem insertLoop_ne_throws (dim n : Nat) (inputVectors ids : List Int) (fuel : Nat)
    (s : ByteLoopState) (r : Outcome Unit × ByteLoopState) (w : String)
    (h : ByteIndexService.insertLoop dim n inputVectors ids fuel s = some r) :
    r.1 ≠ .throws w := by
  induction fuel generalizing s with
  | zero =>
    unfold ByteIndexService.insertLoop at h
    split at h
    · simp at h
    · simp only [Option.some.injEq] at h
      rw [← h]
      simp
  | succ fuel ih =>
    rw [ByteIndexService.insertLoop] at h
    by_cases hlt : s.id < n
    · simp only [hlt, if_true] at h
      generalize (if n - s.id < s.batchSize then n - s.id else s.batchSize) = b at h
      cases hcb : ByteIndexService.convertBatch dim s.id b inputVectors ids s.buffers with
      | ok t =>
        rw [hcb] at h
        simp only at h
        cases hadd : s.idMap.add_with_ids (b : Int) t.inputFloatVectors t.floatVectorsIds with
        | ok m =>
          rw [hadd] at h
          exact ih _ h
        | throws u => exact absurd hadd (add_with_ids_ne_throws _ _ _ _ u)
        | undefined =>
          rw [hadd] at h
          simp only [Option.some.injEq] at h
          rw [← h]
          simp
      | throws u => exact absurd hcb (convertBatch_ne_throws _ _ _ _ _ _ u)
      | undefined =>
        rw [hcb] at h
        simp only [Option.some.injEq] at h
        rw [← h]
        simp
    · simp only [hlt, if_false, Option.some.injEq] at h
      rw [← h]
      simp

theorem checkCounts_cases (c numIds : Int) :
    (c = 0 ∧ checkCounts c numIds = .throws EMPTY_BATCH) ∨
    (c ≠ 0 ∧ numIds ≠ c ∧ checkCounts c numIds = .throws ID_COUNT_MISMATCH) ∨
    (c ≠ 0 ∧ numIds = c ∧ checkCounts c numIds = .ok ()) := by
  unfold checkCounts
  by_cases h0 : c = 0
  · left; simp [h0]
  · by_cases h1 : numIds = c
    · right; right; simp [h0, h1]
    · right; left; simp [h0, h1]

/-- Float path: the three outcomes of validation, for a vector count `c` already known. -/
theorem float_insert_validation {α : Type} (dim numIds threadCount : Int)
    (inputVectors : List α) (ids : List Int) (idMap : IndexIDMap α) (c : Int)
    (hnv : IndexService.numVectors inputVectors.length dim = .ok c) :
    ((IndexService.insertToIndex dim numIds threadCount inputVectors ids idMap).1
        = .throws EMPTY_BATCH ↔ c = 0) ∧
    ((IndexService.insertToIndex dim numIds threadCount inputVectors ids idMap).1
        = .throws ID_COUNT_MISMATCH ↔ c ≠ 0 ∧ numIds ≠ c) ∧
    (c ≠ 0 → numIds = c →
      IndexService.insertToIndex dim numIds threadCount inputVectors ids idMap
        = callAddWithIds idMap c inputVectors ids) ∧
    (c = 0 ∨ numIds ≠ c →
      (IndexService.insertToIndex dim numIds threadCount inputVectors ids idMap).2 = idMap) := by
  unfold IndexService.insertToIndex
  rw [hnv]
  simp only
  rcases checkCounts_cases c numIds with ⟨h0, h⟩ | ⟨h0, h1, h⟩ | ⟨h0, h1, h⟩
  · rw [h]
    simp [h0, messages_ne]
  · rw [h]
    simp [h0, h1, messages_ne.symm]
  · have hk := callAddWithIds_ne_throws idMap c inputVectors ids
    rw [h]
    simp [h0, h1, hk]

/-- Binary path: the three outcomes of validation, for a vector count `c` already known. -/
theorem binary_insert_validation {α : Type} (dim numIds threadCount : Int)
    (inputVectors : List α) (ids : List Int) (idMap : IndexIDMap α) (c : Int)
    (hnv : BinaryIndexService.numVectors inputVectors.length dim = .ok c) :
    ((BinaryIndexService.insertToIndex dim numIds threadCount inputVectors ids idMap).1
        = .throws EMPTY_BATCH ↔ c = 0) ∧
    ((BinaryIndexService.insertToIndex dim numIds threadCount inputVectors ids idMap).1
        = .throws ID_COUNT_MISMATCH ↔ c ≠ 0 ∧ numIds ≠ c) ∧
    (c ≠ 0 → numIds = c →
      BinaryIndexService.insertToIndex dim numIds threadCount inputVectors ids idMap
        = callAddWithIds idMap c inputVectors ids) ∧
    (c = 0 ∨ numIds ≠ c →
      (BinaryIndexService.insertToIndex dim numIds threadCount inputVectors ids idMap).2
        = idMap) := by
  unfold BinaryIndexService.insertToIndex
  rw [hnv]
  simp only
  rcases checkCounts_cases c numIds with ⟨h0, h⟩ | ⟨h0, h1, h⟩ | ⟨h0, h1, h⟩
  · rw [h]
    simp [h0, messages_ne]
  · rw [h]
    simp [h0, h1, messages_ne.symm]
  · have hk := callAddWithIds_ne_throws idMap c inputVectors ids
    rw [h]
    simp [h0, h1, hk]

/-- Byte path, after validation has passed: the call is the buffer allocation followed by
the chunking loop, and it does not end in an exception. -/
theorem byte_insert_validated (fuel : Nat) (dim numIds threadCount : Int)
    (inputVectors ids : List Int) (idMap : IndexIDMap ℚ) (c : Int) (hdim : 1 ≤ dim)
    (hnv : ByteIndexService.numVectors inputVectors.length dim = .ok c)
    (h0 : c ≠ 0) (h1 : numIds = c) :
    ByteIndexService.insertToIndexTrace fuel dim numIds threadCount inputVectors ids idMap
      = (if INT_MAX < 1000 * dim then some (.undefined, idMap, [])
         else (ByteIndexService.insertLoop dim.toNat c.toNat inputVectors ids fuel
            (ByteIndexService.initialLoopState dim idMap)).map
              fun r => (r.1, r.2.idMap, r.2.addCalls)) ∧
    ∀ w, (ByteIndexService.insertToIndex fuel dim numIds threadCount inputVectors ids
      idMap).map Prod.fst ≠ some (.throws w) := by
  have hck : checkCounts c numIds = .ok () := by rw [h1]; exact checkCounts_same c h0
  have hB : ¬ (1000 * dim < 0) := by omega
  have hshape : ByteIndexService.insertToIndexTrace fuel dim numIds threadCount inputVectors
      ids idMap
      = (if INT_MAX < 1000 * dim then some (.undefined, idMap, [])
         else (ByteIndexService.insertLoop dim.toNat c.toNat inputVectors ids fuel
            (ByteIndexService.initialLoopState dim idMap)).map
              fun r => (r.1, r.2.idMap, r.2.addCalls)) := by
    unfold ByteIndexService.insertToIndexTrace
    rw [hnv]
    simp only
    rw [hck]
    simp only [hB, if_false]
  refine ⟨hshape, ?_⟩
  intro w
  unfold ByteIndexService.insertToIndex
  rw [hshape]
  by_cases hA : INT_MAX < 1000 * dim
  · simp [hA]
  · simp only [hA, if_false]
    cases hl : ByteIndexService.insertLoop dim.toNat c.toNat inputVectors ids fuel
        (ByteIndexService.initialLoopState dim idMap) with
    | none => simp
    | some r =>
      have := insertLoop_ne_throws _ _ _ _ _ _ r w hl
      simpa using this

/-- Byte path: the three outcomes of validation, for a vector count `c` already known. -/
theorem byte_insert_validation (fuel : Nat) (dim numIds threadCount : Int)
    (inputVectors ids : List Int) (idMap : IndexIDMap ℚ) (c : Int) (hdim : 1 ≤ dim)
    (hnv : ByteIndexService.numVectors inputVectors.length dim = .ok c) :
    ((ByteIndexService.insertToIndex fuel dim numIds threadCount inputVectors ids idMap).map
        Prod.fst = some (.throws EMPTY_BATCH) ↔ c = 0) ∧
    ((ByteIndexService.insertToIndex fuel dim numIds threadCount inputVectors ids idMap).map
        Prod.fst = some (.throws ID_COUNT_MISMATCH) ↔ c ≠ 0 ∧ numIds ≠ c) ∧
    (c = 0 ∨ numIds ≠ c →
      (ByteIndexService.insertToIndex fuel dim numIds threadCount inputVectors ids idMap).map
        Prod.snd = some idMap) := by
  rcases checkCounts_cases c numIds with ⟨h0, h⟩ | ⟨h0, h1, h⟩ | ⟨h0, h1, h⟩
  · have hr : ByteIndexService.insertToIndex fuel dim numIds threadCount inputVectors ids idMap
        = some (.throws EMPTY_BATCH, idMap) := by
      unfold ByteIndexService.insertToIndex ByteIndexService.insertToIndexTrace
      rw [hnv]
      simp only
      rw [h]
      rfl
    rw [hr]
    simp [h0, messages_ne]
  · have hr : ByteIndexService.insertToIndex fuel dim numIds threadCount inputVectors ids idMap
        = some (.throws ID_COUNT_MISMATCH, idMap) := by
      unfold ByteIndexService.insertToIndex ByteIndexService.insertToIndexTrace
      rw [hnv]
      simp only
      rw [h]
      rfl
    rw [hr]
    simp [h0, h1, messages_ne.symm]
  · have hk := (byte_insert_validated fuel dim numIds threadCount inputVectors ids idMap c
      hdim hnv h0 h1).2
    refine ⟨⟨fun e => absurd e (hk _), fun e => absurd e h0⟩,
      ⟨fun e => absurd e (hk _), fun e => absurd h1 e.2⟩, ?_⟩
    intro e
    rcases e with e | e
    · exact absurd e h0
    · exact absurd h1 e

/-- Witness for C1: 2500 byte vectors of width 2, which the loop inserts as chunks of
1000, 1000 and 500. -/
theorem byte_insertToIndex_refines_unchunked_witness :
    ByteIndexService.insertToIndex 2500 2 2500 0 (List.replicate 5000 7)
        ((List.range 2500).map Int.ofNat) ⟨2, 2, [], 0, []⟩
      = some (ByteIndexService.insertUnchunked 2500 (List.replicate 5000 7)
          ((List.range 2500).map Int.ofNat) ⟨2, 2, [], 0, []⟩) :=
  (byte_insertToIndex_refines_unchunked 2 2500 2500 0 (List.replicate 5000 7)
    ((List.range 2500).map Int.ofNat) ⟨2, 2, [], 0, []⟩ (by omega) (by omega)
    (List.length_replicate _ _) (by rw [List.length_map, List.length_range]) rfl
    (by unfold INT_MAX; omega) (by unfold INT_MAX; omega) (Nat.le_refl _)).1

/-- C2 as stated fails: a float batch with no vectors and `idCount = 3` has an identifier
count different from its vector count, yet the call fails with the empty-batch error,
not with the id-count-mismatch error. -/
theorem insertToIndex_mismatch_counterexample :
    (3 : Int) ≠ (((([] : List ℚ).length / (4 : Int).toNat : Nat)) : Int) ∧
    (IndexService.insertToIndex 4 3 0 ([] : List ℚ) [10, 11, 12] ⟨4, 4, [], 0, []⟩).1
      = .throws EMPTY_BATCH ∧
    (Outcome.throws EMPTY_BATCH : Outcome Unit) ≠ .throws ID_COUNT_MISMATCH := by
  refine ⟨by decide, ?_, by decide⟩
  have hnv := float_numVectors_eq 0 4 (by omega) (by unfold INT_MAX; omega)
    (by unfold INT_MAX; simp)
  exact ((float_insert_validation 4 3 0 ([] : List ℚ) [10, 11, 12] ⟨4, 4, [], 0, []⟩ _
    hnv).1).2 (by simp)

/-- C2, amended. When `idCount` differs from the batch's vector count the call fails and
leaves the index exactly as it was, in the float, binary and byte variants alike; the
error is the empty-batch error when the vector count is zero and the id-count-mismatch
error otherwise. Dimensions and counts are within the `int` range the source computes
in, `dim ≥ 1` (`≥ 8` for binary). -/
theorem insertToIndex_count_mismatch_fails {α β : Type} (dim bdim numIds threadCount : Int)
    (fuel : Nat) (floats : List α) (bits : List β) (bytes : List Int) (ids : List Int)
    (fm : IndexIDMap α) (bm : IndexIDMap β) (ym : IndexIDMap ℚ)
    (hdim : 1 ≤ dim) (hmax : dim ≤ INT_MAX) (hbdim : 8 ≤ bdim) (hbmax : bdim ≤ INT_MAX)
    (hfc : ((floats.length / dim.toNat : Nat) : Int) ≤ INT_MAX)
    (hbc : ((bits.length / (bdim.toNat / 8) : Nat) : Int) ≤ INT_MAX)
    (hyc : ((bytes.length / dim.toNat : Nat) : Int) ≤ INT_MAX) :
    (numIds ≠ ((floats.length / dim.toNat : Nat) : Int) →
      IndexService.insertToIndex dim numIds threadCount floats ids fm
        = (.throws (if floats.length / dim.toNat = 0 then EMPTY_BATCH
            else ID_COUNT_MISMATCH), fm)) ∧
    (numIds ≠ ((bits.length / (bdim.toNat / 8) : Nat) : Int) →
      BinaryIndexService.insertToIndex bdim numIds threadCount bits ids bm
        = (.throws (if bits.length / (bdim.toNat / 8) = 0 then EMPTY_BATCH
            else ID_COUNT_MISMATCH), bm)) ∧
    (numIds ≠ ((bytes.length / dim.toNat : Nat) : Int) →
      ByteIndexService.insertToIndex fuel dim numIds threadCount bytes ids ym
        = some (.throws (if bytes.length / dim.toNat = 0 then EMPTY_BATCH
            else ID_COUNT_MISMATCH), ym)) := by
  have hf := float_insert_validation dim numIds threadCount floats ids fm _
    (float_numVectors_eq _ dim hdim hmax hfc)
  have hb := binary_insert_validation bdim numIds threadCount bits ids bm _
    (binary_numVectors_eq _ bdim hbdim hbmax hbc)
  have hy := byte_insert_validation fuel dim numIds threadCount bytes ids ym _ hdim
    (byte_numVectors_eq _ dim hdim hmax hyc)
  refine ⟨fun hne => ?_, fun hne => ?_, fun hne => ?_⟩
  · apply Prod.ext
    · by_cases h0 : floats.length / dim.toNat = 0
      · simp only [h0, if_true]
        exact hf.1.2 (by rw [h0]; rfl)
      · simp only [h0, if_false]
        exact hf.2.1.2 ⟨by omega, hne⟩
    · exact hf.2.2.2 (Or.inr hne)
  · apply Prod.ext
    · by_cases h0 : bits.length / (bdim.toNat / 8) = 0
      · simp only [h0, if_true]
        exact hb.1.2 (by rw [h0]; rfl)
      · simp only [h0, if_false]
        exact hb.2.1.2 ⟨by omega, hne⟩
    · exact hb.2.2.2 (Or.inr hne)
  · have h2 := hy.2.2 (Or.inr hne)
    cases hr : ByteIndexService.insertToIndex fuel dim numIds threadCount bytes ids ym with
    | none => rw [hr] at h2; simp at h2
    | some r =>
      rw [hr] at h2
      simp only [Option.map_some', Option.some.injEq] at h2
      congr 1
      apply Prod.ext
      · by_cases h0 : bytes.length / dim.toNat = 0
        · have := hy.1.2 (by rw [h0]; rfl)
          rw [hr] at this
          simp only [h0, if_true]
          simpa using this
        · have := hy.2.1.2 ⟨by omega, hne⟩
          rw [hr] at this
          simp only [h0, if_false]
          simpa using this
      · exact h2

/-- Witness for the amended C2: two float vectors and two binary vectors offered with
five identifiers, and an empty byte batch offered with five identifiers. -/
theorem insertToIndex_count_mismatch_fails_witness :
    IndexService.insertToIndex 4 5 0 ([1, 0, 0, 0, 0, 1, 0, 0] : List ℚ) [1, 2, 3, 4, 5]
        ⟨4, 4, [], 0, []⟩
      = (.throws ID_COUNT_MISMATCH, ⟨4, 4, [], 0, []⟩) ∧
    BinaryIndexService.insertToIndex 16 5 0 ([255, 0, 1, 2] : List Nat) [1, 2, 3, 4, 5]
        ⟨16, 2, [], 0, []⟩
      = (.throws ID_COUNT_MISMATCH, ⟨16, 2, [], 0, []⟩) ∧
    ByteIndexService.insertToIndex 0 4 5 0 [] [1, 2, 3, 4, 5] ⟨4, 4, [], 0, []⟩
      = some (.throws EMPTY_BATCH, ⟨4, 4, [], 0, []⟩) := by
  have h := insertToIndex_count_mismatch_fails 4 16 5 0 0
    ([1, 0, 0, 0, 0, 1, 0, 0] : List ℚ) ([255, 0, 1, 2] : List Nat) [] [1, 2, 3, 4, 5]
    ⟨4, 4, [], 0, []⟩ ⟨16, 2, [], 0, []⟩ ⟨4, 4, [], 0, []⟩
    (by decide) (by decide) (by decide) (by decide) (by decide) (by decide) (by decide)
  exact ⟨h.1 (by decide), h.2.1 (by decide), h.2.2 (by decide)⟩

/-- C3. With `dim ≥ 1` the float and byte paths derive the vector count
`⌊elementCount / dim⌋`, and with `dim ≥ 8` the binary path derives
`⌊elementCount / (dim / 8)⌋`. Each path fails with the empty-batch error exactly when
that count is zero, fails with the id-count-mismatch error exactly when the count is
non-zero and differs from `idCount`, and otherwise passes validation: the float and
binary calls are then the library insertion of that many vectors, the byte call is then
the buffer allocation followed by the chunking loop. Dimensions and counts are within
the `int` range the source computes in. -/
theorem insertToIndex_validation {α β : Type} (dim bdim numIds threadCount : Int)
    (fuel : Nat) (floats : List α) (bits : List β) (bytes : List Int) (ids : List Int)
    (fm : IndexIDMap α) (bm : IndexIDMap β) (ym : IndexIDMap ℚ)
    (hdim : 1 ≤ dim) (hmax : dim ≤ INT_MAX) (hbdim : 8 ≤ bdim) (hbmax : bdim ≤ INT_MAX)
    (hfc : ((floats.length / dim.toNat : Nat) : Int) ≤ INT_MAX)
    (hbc : ((bits.length / (bdim.toNat / 8) : Nat) : Int) ≤ INT_MAX)
    (hyc : ((bytes.length / dim.toNat : Nat) : Int) ≤ INT_MAX) :
    (IndexService.numVectors floats.length dim
        = .ok ((floats.length / dim.toNat : Nat) : Int) ∧
      ((IndexService.insertToIndex dim numIds threadCount floats ids fm).1
          = .throws EMPTY_BATCH ↔ floats.length / dim.toNat = 0) ∧
      ((IndexService.insertToIndex dim numIds threadCount floats ids fm).1
          = .throws ID_COUNT_MISMATCH ↔
        floats.length / dim.toNat ≠ 0 ∧ numIds ≠ ((floats.length / dim.toNat : Nat) : Int)) ∧
      (floats.length / dim.toNat ≠ 0 → numIds = ((floats.length / dim.toNat : Nat) : Int) →
        IndexService.insertToIndex dim numIds threadCount floats ids fm
          = callAddWithIds fm ((floats.length / dim.toNat : Nat) : Int) floats ids)) ∧
    (BinaryIndexService.numVectors bits.length bdim
        = .ok ((bits.length / (bdim.toNat / 8) : Nat) : Int) ∧
      ((BinaryIndexService.insertToIndex bdim numIds threadCount bits ids bm).1
          = .throws EMPTY_BATCH ↔ bits.length / (bdim.toNat / 8) = 0) ∧
      ((BinaryIndexService.insertToIndex bdim numIds threadCount bits ids bm).1
          = .throws ID_COUNT_MISMATCH ↔
        bits.length / (bdim.toNat / 8) ≠ 0 ∧
          numIds ≠ ((bits.length / (bdim.toNat / 8) : Nat) : Int)) ∧
      (bits.length / (bdim.toNat / 8) ≠ 0 →
        numIds = ((bits.length / (bdim.toNat / 8) : Nat) : Int) →
        BinaryIndexService.insertToIndex bdim numIds threadCount bits ids bm
          = callAddWithIds bm ((bits.length / (bdim.toNat / 8) : Nat) : Int) bits ids)) ∧
    (ByteIndexService.numVectors bytes.length dim
        = .ok ((bytes.length / dim.toNat : Nat) : Int) ∧
      ((ByteIndexService.insertToIndex fuel dim numIds threadCount bytes ids ym).map Prod.fst
          = some (.throws EMPTY_BATCH) ↔ bytes.length / dim.toNat = 0) ∧
      ((ByteIndexService.insertToIndex fuel dim numIds threadCount bytes ids ym).map Prod.fst
          = some (.throws ID_COUNT_MISMATCH) ↔
        bytes.length / dim.toNat ≠ 0 ∧ numIds ≠ ((bytes.length / dim.toNat : Nat) : Int)) ∧
      (bytes.length / dim.toNat ≠ 0 → numIds = ((bytes.length / dim.toNat : Nat) : Int) →
        ByteIndexService.insertToIndexTrace fuel dim numIds threadCount bytes ids ym
          = (if INT_MAX < 1000 * dim then some (.undefined, ym, [])
             else (ByteIndexService.insertLoop dim.toNat (bytes.length / dim.toNat) bytes ids
                fuel (ByteIndexService.initialLoopState dim ym)).map
                  fun r => (r.1, r.2.idMap, r.2.addCalls)))) := by
  have hfn := float_numVectors_eq _ dim hdim hmax hfc
  have hbn := binary_numVectors_eq _ bdim hbdim hbmax hbc
  have hyn := byte_numVectors_eq _ dim hdim hmax hyc
  have hf := float_insert_validation dim numIds threadCount floats ids fm _ hfn
  have hb := binary_insert_validation bdim numIds threadCount bits ids bm _ hbn
  have hy := byte_insert_validation fuel dim numIds threadCount bytes ids ym _ hdim hyn
  refine ⟨⟨hfn, ?_, ?_, ?_⟩, ⟨hbn, ?_, ?_, ?_⟩, ⟨hyn, ?_, ?_, ?_⟩⟩
  · rw [hf.1]; omega
  · rw [hf.2.1]
    constructor
    · exact fun h => ⟨by omega, h.2⟩
    · exact fun h => ⟨by omega, h.2⟩
  · exact fun h0 h1 => hf.2.2.1 (by omega) h1
  · rw [hb.1]; omega
  · rw [hb.2.1]
    constructor
    · exact fun h => ⟨by omega, h.2⟩
    · exact fun h => ⟨by omega, h.2⟩
  · exact fun h0 h1 => hb.2.2.1 (by omega) h1
  · rw [hy.1]; omega
  · rw [hy.2.1]
    constructor
    · exact fun h => ⟨by omega, h.2⟩
    · exact fun h => ⟨by omega, h.2⟩
  · intro h0 h1
    have := (byte_insert_validated fuel dim numIds threadCount bytes ids ym _ hdim hyn
      (by omega) h1).1
    rw [Int.toNat_ofNat] at this
    exact this

/-- Witness for C3: the vector counts of two float vectors of width 4, two binary vectors
of 16 bits and an empty byte batch. -/
theorem insertToIndex_validation_witness :
    IndexService.numVectors 8 4 = .ok 2 ∧
    BinaryIndexService.numVectors 4 16 = .ok 2 ∧
    ByteIndexService.numVectors 0 4 = .ok 0 := by
  have h := insertToIndex_validation 4 16 5 0 0
    ([1, 0, 0, 0, 0, 1, 0, 0] : List ℚ) ([255, 0, 1, 2] : List Nat) [] [1, 2, 3, 4, 5]
    ⟨4, 4, [], 0, []⟩ ⟨16, 2, [], 0, []⟩ ⟨4, 4, [], 0, []⟩
    (by decide) (by decide) (by decide) (by decide) (by decide) (by decide) (by decide)
  exact ⟨h.1.1, h.2.1.1, h.2.2.1⟩

theorem rows_append {α : Type} (m m' : IndexIDMap α) (k : Nat) (x : List α)
    (hwf : m.WellFormed) (hxb' : m'.xb = m.xb ++ x.take (k * m.code_elems))
    (hnt : m'.ntotal = m.ntotal + k) (hc : m'.code_elems = m.code_elems) :
    m'.rows = m.rows ++ vectorsOf m.code_elems k x := by
  obtain ⟨_, hxb⟩ := hwf
  unfold IndexIDMap.rows vectorsOf
  rw [hxb', hnt, hc, List.range_add, List.map_append, List.map_map]
  congr 1
  · apply List.map_congr_left
    intro i hi
    rw [List.mem_range] at hi
    have h1 : i * m.code_elems + m.code_elems ≤ m.xb.length := by
      rw [hxb, ← Nat.succ_mul]
      exact Nat.mul_le_mul_right _ hi
    rw [List.drop_append_of_le_length (by omega),
      List.take_append_of_le_length (by rw [List.length_drop]; omega)]
  · apply List.map_congr_left
    intro j hj
    rw [List.mem_range] at hj
    have h1 : j * m.code_elems + m.code_elems ≤ k * m.code_elems := by
      rw [← Nat.succ_mul]
      exact Nat.mul_le_mul_right _ hj
    have h2 : (m.ntotal + j) * m.code_elems = m.xb.length + j * m.code_elems := by
      rw [Nat.add_mul, hxb]
    simp only [Function.comp]
    rw [h2, List.drop_append, List.drop_take, List.take_take,
      Nat.min_eq_left (by omega)]

theorem rows_length {α : Type} (m : IndexIDMap α) : m.rows.length = m.ntotal := by
  unfold IndexIDMap.rows
  rw [List.length_map, List.length_range]

theorem vectorsOf_length {α : Type} (width n : Nat) (x : List α) :
    (vectorsOf width n x).length = n := by
  unfold vectorsOf
  rw [List.length_map, List.length_range]

theorem vectorsOf_getElem? {α : Type} (width n : Nat) (x : List α) (i : Nat) (hi : i < n) :
    (vectorsOf width n x)[i]? = some ((x.drop (i * width)).take width) := by
  unfold vectorsOf
  rw [List.getElem?_map, List.getElem?_range hi]
  rfl

theorem find_zip_fresh {β : Type} (ks : List Int) (vs : List β) (i : Nat) (k : Int) (v : β)
    (hk : ks[i]? = some k) (hv : vs[i]? = some v) (hfresh : k ∉ ks.take i) :
    (ks.zip vs).find? (fun e => e.1 == k) = some (k, v) := by
  induction ks generalizing vs i with
  | nil => simp at hk
  | cons a ks ih =>
    cases vs with
    | nil => simp at hv
    | cons b vs =>
      cases i with
      | zero =>
        simp only [List.getElem?_cons_zero, Option.some.injEq] at hk hv
        subst hk hv
        simp [List.zip_cons_cons]
      | succ i =>
        simp only [List.getElem?_cons_succ] at hk hv
        simp only [List.take_succ_cons, List.mem_cons, not_or] at hfresh
        rw [List.zip_cons_cons, List.find?_cons_of_neg]
        · exact ih vs i hk hv hfresh.2
        · simp only [beq_iff_eq]
          exact fun h => hfresh.1 h.symm

/-- C4. A float insertion that passes validation, with `n = ⌊elementCount / dim⌋ = idCount
≥ 1` identifiers, into a well-formed index storing vectors of width `dim`, returns
normally and leaves the index holding its previous entries unchanged, followed by the
`n` pairs of the `i`-th identifier and the `i`-th vector of the batch in input order;
afterwards the identifier count equals the stored-vector count, and reconstructing an
identifier `ids[i]` that occurs neither in the index before nor earlier in the batch
yields the `i`-th input vector. Dimension and count are within the `int` range. -/
theorem float_insertToIndex_appends {α : Type} (dim numIds threadCount : Int) (n : Nat)
    (inputVectors : List α) (ids : List Int) (idMap : IndexIDMap α)
    (hdim : 1 ≤ dim) (hmax : dim ≤ INT_MAX)
    (hn : n = inputVectors.length / dim.toNat) (hn1 : 1 ≤ n) (hnmax : (n : Int) ≤ INT_MAX)
    (hnum : numIds = (n : Int)) (hids : ids.length = n)
    (hwidth : idMap.code_elems = dim.toNat) (hwf : idMap.WellFormed) :
    ∃ m, IndexService.insertToIndex dim numIds threadCount inputVectors ids idMap
        = (.ok (), m) ∧
      m.entries = idMap.entries ++ ids.zip (vectorsOf dim.toNat n inputVectors) ∧
      m.ntotal = idMap.ntotal + n ∧
      m.id_map.length = m.ntotal ∧
      m.WellFormed ∧
      ∀ i k, i < n → ids[i]? = some k → k ∉ idMap.id_map → k ∉ ids.take i →
        m.reconstruct k = some ((inputVectors.drop (i * dim.toNat)).take dim.toNat) := by
  have hnv := float_numVectors_eq inputVectors.length dim hdim hmax (by rw [← hn]; exact hnmax)
  rw [← hn] at hnv
  have hval := (float_insert_validation dim numIds threadCount inputVectors ids idMap _
    hnv).2.2.1 (by omega) hnum
  have hle : n * idMap.code_elems ≤ inputVectors.length := by
    rw [hwidth, hn]
    exact Nat.div_mul_le_self _ _
  have hadd := add_with_ids_nat idMap n inputVectors ids hle (by omega)
  rw [List.take_of_length_le (show ids.length ≤ n by omega)] at hadd
  obtain ⟨hwf1, hwf2⟩ := hwf
  have hrows := rows_append idMap
    { idMap with
      xb := idMap.xb ++ inputVectors.take (n * idMap.code_elems)
      ntotal := idMap.ntotal + n
      id_map := idMap.id_map ++ ids } n inputVectors ⟨hwf1, hwf2⟩ rfl rfl rfl
  have hent : ({ idMap with
      xb := idMap.xb ++ inputVectors.take (n * idMap.code_elems)
      ntotal := idMap.ntotal + n
      id_map := idMap.id_map ++ ids } : IndexIDMap α).entries
      = idMap.entries ++ ids.zip (vectorsOf dim.toNat n inputVectors) := by
    unfold IndexIDMap.entries
    rw [hrows]
    show (idMap.id_map ++ ids).zip (idMap.rows ++ vectorsOf idMap.code_elems n inputVectors)
      = _
    rw [hwidth]
    exact List.zip_append (by rw [rows_length]; exact hwf1)
  refine ⟨_, ?_, hent, rfl, ?_, ⟨?_, ?_⟩, ?_⟩
  · rw [hval]
    unfold callAddWithIds
    rw [hadd]
  · simp only [List.length_append]
    omega
  · simp only [List.length_append]
    omega
  · simp only [List.length_append, List.length_take, Nat.add_mul]
    omega
  · intro i k hi hk hold hfresh
    unfold IndexIDMap.reconstruct
    rw [hent, List.find?_append]
    have hnone : idMap.entries.find? (fun e => e.1 == k) = none := by
      rw [List.find?_eq_none]
      intro e he hek
      have hmem := (List.of_mem_zip (show (e.1, e.2) ∈ idMap.id_map.zip idMap.rows from he)).1
      simp only [beq_iff_eq] at hek
      exact hold (hek ▸ hmem)
    rw [hnone, Option.none_or,
      find_zip_fresh ids _ i k _ hk (vectorsOf_getElem? _ _ _ i hi) hfresh]
    rfl

/-- Witness for C4, the scenario of the specification: three float vectors of width 4
with identifiers 10, 11, 12 inserted into an empty index; identifier 11 reconstructs
to `[0, 1, 0, 0]`. -/
theorem float_insertToIndex_appends_witness :
    ∃ m, IndexService.insertToIndex 4 3 0 ([1, 0, 0, 0, 0, 1, 0, 0, 0, 0, 1, 0] : List ℚ)
        [10, 11, 12] ⟨4, 4, [], 0, []⟩ = (.ok (), m) ∧
      m.id_map.length = m.ntotal ∧
      m.reconstruct 11 = some [0, 1, 0, 0] := by
  obtain ⟨m, h, _, _, hcount, _, hrec⟩ := float_insertToIndex_appends 4 3 0 3
    ([1, 0, 0, 0, 0, 1, 0, 0, 0, 0, 1, 0] : List ℚ) [10, 11, 12] ⟨4, 4, [], 0, []⟩
    (by decide) (by decide) (by decide) (by decide) (by decide) rfl rfl rfl ⟨rfl, rfl⟩
  exact ⟨m, h, hcount, hrec 1 11 (by decide) rfl (by simp) (by simp)⟩

theorem SetExtraParameters_skeleton {J : Type} (jniUtil : JNIUtil J)
    (parametersCpp : String → Option J) (index : Index) :
    (SetExtraParameters jniUtil parametersCpp index).skeleton = index.skeleton := by
  induction index generalizing parametersCpp with
  | ivf hdr nprobe nlist own_fields quantizer ih =>
    simp only [SetExtraParameters, Index.skeleton]
    congr 1
    cases parametersCpp COARSE_QUANTIZER with
    | none => rfl
    | some value =>
      simp only
      split
      · exact ih _
      · rfl
  | hnsw hdr efConstruction efSearch graph own_fields storage _ =>
    simp only [SetExtraParameters, Index.skeleton]
  | null => rfl
  | foreign addr => rfl
  | flat f => rfl
  | idmap hdr own_fields index id_map _ => rfl
  | other hdr kind => rfl

theorem SetExtraParameters_header {J : Type} (jniUtil : JNIUtil J)
    (parametersCpp : String → Option J) (index : Index) :
    (SetExtraParameters jniUtil parametersCpp index).header = index.header := by
  cases index <;> rfl

/-- C8. `SetExtraParameters` is a total function of the index tree and the parameter set
(so it terminates), and its result is the input index changed in these fields only. On
an IVF node the probe count is the converted value when the probe-count key is present,
and the quantizer is the result of applying the nested set to it when the
coarse-quantizer key is present and the quantizer is not null. On an HNSW node the
construction and search breadths are the converted values when their keys are present.
Every other field of the tree is as before (equal skeletons). An index that is neither
IVF nor HNSW is returned unchanged, and so is every index when none of the four keys is
present. -/
theorem SetExtraParameters_effect {J : Type} (jniUtil : JNIUtil J)
    (parametersCpp : String → Option J) :
    (∀ hdr nprobe nlist own_fields quantizer,
      SetExtraParameters jniUtil parametersCpp (.ivf hdr nprobe nlist own_fields quantizer)
        = .ivf hdr
            (match parametersCpp NPROBES with
              | some value => toUInt64 (jniUtil.ConvertJavaObjectToCppInteger value)
              | none => nprobe)
            nlist own_fields
            (match parametersCpp COARSE_QUANTIZER with
              | some value =>
                if quantizer ≠ .null then
                  SetExtraParameters jniUtil (jniUtil.ConvertJavaMapToCppMap value) quantizer
                else quantizer
              | none => quantizer)) ∧
    (∀ hdr efConstruction efSearch graph own_fields storage,
      SetExtraParameters jniUtil parametersCpp
          (.hnsw hdr efConstruction efSearch graph own_fields storage)
        = .hnsw hdr
            (match parametersCpp EF_CONSTRUCTION with
              | some value => jniUtil.ConvertJavaObjectToCppInteger value
              | none => efConstruction)
            (match parametersCpp EF_SEARCH with
              | some value => jniUtil.ConvertJavaObjectToCppInteger value
              | none => efSearch)
            graph own_fields storage) ∧
    (∀ index, (SetExtraParameters jniUtil parametersCpp index).skeleton = index.skeleton) ∧
    (∀ index, (∀ hdr nprobe nlist own_fields quantizer,
          index ≠ .ivf hdr nprobe nlist own_fields quantizer) →
        (∀ hdr efConstruction efSearch graph own_fields storage,
          index ≠ .hnsw hdr efConstruction efSearch graph own_fields storage) →
        SetExtraParameters jniUtil parametersCpp index = index) ∧
    (parametersCpp NPROBES = none → parametersCpp COARSE_QUANTIZER = none →
      parametersCpp EF_CONSTRUCTION = none → parametersCpp EF_SEARCH = none →
      ∀ index, SetExtraParameters jniUtil parametersCpp index = index) := by
  refine ⟨fun _ _ _ _ _ => rfl, fun _ _ _ _ _ _ => rfl,
    SetExtraParameters_skeleton jniUtil parametersCpp, ?_, ?_⟩
  · intro index hivf hhnsw
    cases index with
    | ivf hdr nprobe nlist own_fields quantizer => exact absurd rfl (hivf _ _ _ _ _)
    | hnsw hdr efConstruction efSearch graph own_fields storage =>
      exact absurd rfl (hhnsw _ _ _ _ _ _)
    | null => rfl
    | foreign addr => rfl
    | flat f => rfl
    | idmap hdr own_fields index id_map => rfl
    | other hdr kind => rfl
  · intro h1 h2 h3 h4 index
    cases index with
    | ivf hdr nprobe nlist own_fields quantizer => simp only [SetExtraParameters, h1, h2]
    | hnsw hdr efConstruction efSearch graph own_fields storage =>
      simp only [SetExtraParameters, h3, h4]
    | null => rfl
    | foreign addr => rfl
    | flat f => rfl
    | idmap hdr own_fields index id_map => rfl
    | other hdr kind => rfl

/-- Witness for C8: a parameter set holding only an unrecognized key leaves an HNSW index
unchanged, and a flat index is unchanged by the recognized keys. -/
theorem SetExtraParameters_effect_witness :
    SetExtraParameters sampleJNIUtil (fun key => if key = "other_key" then some 3 else none)
        sampleHNSW = sampleHNSW ∧
    SetExtraParameters sampleJNIUtil (fun key => if key = EF_SEARCH then some 3 else none)
        (.flat ⟨sampleHeader, []⟩) = .flat ⟨sampleHeader, []⟩ :=
  ⟨(SetExtraParameters_effect sampleJNIUtil
      (fun key => if key = "other_key" then some 3 else none)).2.2.2.2
      (by decide) (by decide) (by decide) (by decide) sampleHNSW,
   (SetExtraParameters_effect sampleJNIUtil
      (fun key => if key = EF_SEARCH then some 3 else none)).2.2.2.1
      (.flat ⟨sampleHeader, []⟩) (fun _ _ _ _ _ h => by cases h)
      (fun _ _ _ _ _ _ h => by cases h)⟩

theorem initIndexFrom_untrained {J : Type} (jniUtil : JNIUtil J)
    (parameters : String → Option J) (allocIndex : Index → Outcome Unit) (created : Index)
    (hdr : IndexHeader)
    (hh : (SetExtraParameters jniUtil parameters created).header = some hdr)
    (ht : hdr.is_trained = false) :
    initIndexFrom jniUtil parameters allocIndex created
      = (.throws NOT_TRAINED, [.injected, .trainedChecked]) := by
  unfold initIndexFrom
  simp only [hh, ht, Bool.not_false, if_true]

theorem initIndexFrom_trained {J : Type} (jniUtil : JNIUtil J)
    (parameters : String → Option J) (allocIndex : Index → Outcome Unit) (created : Index)
    (hdr : IndexHeader)
    (hh : (SetExtraParameters jniUtil parameters created).header = some hdr)
    (ht : hdr.is_trained = true) :
    (allocIndex (SetExtraParameters jniUtil parameters created) = .ok () →
      initIndexFrom jniUtil parameters allocIndex created
        = (.ok (.idmap hdr true (SetExtraParameters jniUtil parameters created) []),
            [.injected, .trainedChecked, .wrapped, .presized])) ∧
    (allocIndex (SetExtraParameters jniUtil parameters created) ≠ .ok () →
      initIndexFrom jniUtil parameters allocIndex created
        = (.undefined, [.injected, .trainedChecked, .wrapped])) := by
  unfold initIndexFrom
  simp only [hh, ht, Bool.not_true, Bool.false_eq_true, if_false]
  cases allocIndex (SetExtraParameters jniUtil parameters created) with
  | ok u => exact ⟨fun _ => rfl, fun h => absurd rfl h⟩
  | throws e => exact ⟨fun h => (by cases h), fun _ => rfl⟩
  | undefined => exact ⟨fun h => (by cases h), fun _ => rfl⟩

/-- The handle question for the shared steps: a handle is returned exactly when the
parameterized index is trained and the pre-sizing ends normally. -/
theorem initIndexFrom_handle_iff {J : Type} (jniUtil : JNIUtil J)
    (parameters : String → Option J) (allocIndex : Index → Outcome Unit) (created : Index)
    (hdr : IndexHeader)
    (hh : (SetExtraParameters jniUtil parameters created).header = some hdr) :
    (∃ handle, (initIndexFrom jniUtil parameters allocIndex created).1 = .ok handle) ↔
      hdr.is_trained = true ∧
        allocIndex (SetExtraParameters jniUtil parameters created) = .ok () := by
  cases ht : hdr.is_trained with
  | false =>
    rw [initIndexFrom_untrained jniUtil parameters allocIndex created hdr hh ht]
    simp
  | true =>
    have h := initIndexFrom_trained jniUtil parameters allocIndex created hdr hh ht
    by_cases ha : allocIndex (SetExtraParameters jniUtil parameters created) = .ok ()
    · rw [h.1 ha]
      simp [ha]
    · rw [h.2 ha]
      simp [ha]

theorem reserveCodes_granted (reserveOk : Nat → Bool) (code_size numVectors : Nat)
    (h : ∀ n, reserveOk n = true) : reserveCodes reserveOk code_size numVectors = .ok () := by
  unfold reserveCodes
  rw [h, if_pos rfl]

theorem float_allocIndex_granted (reserveOk : Nat → Bool) (sqCodeSize : Index → Option Nat)
    (index : Index) (dim numVectors : Nat) (h : ∀ n, reserveOk n = true) :
    IndexService.allocIndex reserveOk sqCodeSize index dim numVectors = .ok () := by
  unfold IndexService.allocIndex
  have h1 : (match sqCodeSize index with
      | some code_size => reserveCodes reserveOk code_size numVectors
      | none => Outcome.ok ()) = .ok () := by
    cases sqCodeSize index with
    | none => rfl
    | some c => exact reserveCodes_granted reserveOk c numVectors h
  rw [h1]
  simp only [Outcome.bind]
  split
  · exact reserveCodes_granted reserveOk _ numVectors h
  · rfl

theorem byte_allocIndex_granted (reserveOk : Nat → Bool) (sqCodeSize : Index → Option Nat)
    (index : Index) (dim numVectors : Nat) (h : ∀ n, reserveOk n = true) :
    ByteIndexService.allocIndex reserveOk sqCodeSize index dim numVectors = .ok () := by
  unfold ByteIndexService.allocIndex
  cases sqCodeSize index with
  | none => rfl
  | some c => exact reserveCodes_granted reserveOk c numVectors h


/-- C9 as stated fails: a trained HNSW index over flat storage, created with
`numVectors = -1`, yields no handle from the float service. The pre-sizing asks for
`16 * (2^64 - 1) mod 2^64` bytes, more than a vector can hold, and `reserve` throws
after the trained check has passed; the call does not end with a handle. -/
theorem initIndex_presizing_counterexample :
    sampleHNSW.header = some sampleHeader ∧
    sampleHeader.is_trained = true ∧
    IndexService.allocIndex sampleReserve noScalarQuantizer sampleHNSW (toUInt64 4)
      (toUInt64 (-1)) = .throws RESERVE_FAILED ∧
    (IndexService.initIndex (fun _ _ _ => .ok sampleHNSW) sampleJNIUtil
      sampleReserve noScalarQuantizer 0 "HNSW16,Flat" 4 (-1) 0 (fun _ => none)).1
        = .undefined := by
  have halloc : IndexService.allocIndex sampleReserve noScalarQuantizer sampleHNSW
      (toUInt64 4) (toUInt64 (-1)) = .throws RESERVE_FAILED := by decide
  refine ⟨rfl, rfl, halloc, ?_⟩
  have h := (initIndexFrom_trained sampleJNIUtil (fun _ => none)
    (fun index => IndexService.allocIndex sampleReserve noScalarQuantizer index (toUInt64 4)
      (toUInt64 (-1))) sampleHNSW sampleHeader rfl rfl).2
    (by show IndexService.allocIndex sampleReserve noScalarQuantizer sampleHNSW
          (toUInt64 4) (toUInt64 (-1)) ≠ .ok ()
        rw [halloc]
        exact fun h => by cases h)
  show (initIndexFrom sampleJNIUtil (fun _ => none)
    (fun index => IndexService.allocIndex sampleReserve noScalarQuantizer index (toUInt64 4)
      (toUInt64 (-1))) sampleHNSW).1 = .undefined
  rw [h]

/-- C9, amended. For an index `created` by the factory, each `initIndex` (float, binary,
byte) applies the parameter injector first and then checks the trained flag of the
parameterized index. When it is not trained the call fails with 'Index is not trained'
and returns no handle. The binary service returns a handle exactly when the index is
trained. The float and byte services return a handle exactly when the index is trained
and the pre-sizing of the storage (`allocIndex`) ends normally, which it does whenever
the allocator grants every reservation. A returned handle denotes an identifier map
that owns the parameterized index and holds no identifiers. -/
theorem initIndex_handle_iff {J : Type} (jniUtil : JNIUtil J)
    (indexFactory : Int → String → MetricType → Outcome Index)
    (indexBinaryFactory : Int → String → Outcome Index)
    (reserveOk : Nat → Bool) (sqCodeSize : Index → Option Nat)
    (metric : MetricType) (indexDescription : String) (dim numVectors threadCount : Int)
    (parameters : String → Option J) (created bcreated : Index) (hdr bhdr : IndexHeader)
    (hf : indexFactory dim indexDescription metric = .ok created)
    (hbf : indexBinaryFactory dim indexDescription = .ok bcreated)
    (hh : (SetExtraParameters jniUtil parameters created).header = some hdr)
    (hbh : (SetExtraParameters jniUtil parameters bcreated).header = some bhdr) :
    ((hdr.is_trained = false →
        IndexService.initIndex indexFactory jniUtil reserveOk sqCodeSize metric
            indexDescription dim numVectors threadCount parameters
          = (.throws NOT_TRAINED, [.injected, .trainedChecked])) ∧
      (hdr.is_trained = true →
        IndexService.allocIndex reserveOk sqCodeSize
            (SetExtraParameters jniUtil parameters created) (toUInt64 dim)
            (toUInt64 numVectors) = .ok () →
        IndexService.initIndex indexFactory jniUtil reserveOk sqCodeSize metric
            indexDescription dim numVectors threadCount parameters
          = (.ok (.idmap hdr true (SetExtraParameters jniUtil parameters created) []),
              [.injected, .trainedChecked, .wrapped, .presized])) ∧
      ((∃ handle, (IndexService.initIndex indexFactory jniUtil reserveOk sqCodeSize metric
            indexDescription dim numVectors threadCount parameters).1 = .ok handle) ↔
        hdr.is_trained = true ∧
          IndexService.allocIndex reserveOk sqCodeSize
            (SetExtraParameters jniUtil parameters created) (toUInt64 dim)
            (toUInt64 numVectors) = .ok ()) ∧
      ((∀ n, reserveOk n = true) →
        IndexService.allocIndex reserveOk sqCodeSize
          (SetExtraParameters jniUtil parameters created) (toUInt64 dim)
          (toUInt64 numVectors) = .ok ())) ∧
    ((bhdr.is_trained = false →
        BinaryIndexService.initIndex indexBinaryFactory jniUtil reserveOk metric
            indexDescription dim numVectors threadCount parameters
          = (.throws NOT_TRAINED, [.injected, .trainedChecked])) ∧
      (bhdr.is_trained = true →
        BinaryIndexService.initIndex indexBinaryFactory jniUtil reserveOk metric
            indexDescription dim numVectors threadCount parameters
          = (.ok (.idmap bhdr true (SetExtraParameters jniUtil parameters bcreated) []),
              [.injected, .trainedChecked, .wrapped, .presized])) ∧
      ((∃ handle, (BinaryIndexService.initIndex indexBinaryFactory jniUtil reserveOk metric
            indexDescription dim numVectors threadCount parameters).1 = .ok handle) ↔
        bhdr.is_trained = true)) ∧
    ((hdr.is_trained = false →
        ByteIndexService.initIndex indexFactory jniUtil reserveOk sqCodeSize metric
            indexDescription dim numVectors threadCount parameters
          = (.throws NOT_TRAINED, [.injected, .trainedChecked])) ∧
      (hdr.is_trained = true →
        ByteIndexService.allocIndex reserveOk sqCodeSize
            (SetExtraParameters jniUtil parameters created) (toUInt64 dim)
            (toUInt64 numVectors) = .ok () →
        ByteIndexService.initIndex indexFactory jniUtil reserveOk sqCodeSize metric
            indexDescription dim numVectors threadCount parameters
          = (.ok (.idmap hdr true (SetExtraParameters jniUtil parameters created) []),
              [.injected, .trainedChecked, .wrapped, .presized])) ∧
      ((∃ handle, (ByteIndexService.initIndex indexFactory jniUtil reserveOk sqCodeSize metric
            indexDescription dim numVectors threadCount parameters).1 = .ok handle) ↔
        hdr.is_trained = true ∧
          ByteIndexService.allocIndex reserveOk sqCodeSize
            (SetExtraParameters jniUtil parameters created) (toUInt64 dim)
            (toUInt64 numVectors) = .ok ()) ∧
      ((∀ n, reserveOk n = true) →
        ByteIndexService.allocIndex reserveOk sqCodeSize
          (SetExtraParameters jniUtil parameters created) (toUInt64 dim)
          (toUInt64 numVectors) = .ok ())) := by
  have e1 : IndexService.initIndex indexFactory jniUtil reserveOk sqCodeSize metric
      indexDescription dim numVectors threadCount parameters
      = initIndexFrom jniUtil parameters
          (fun index => IndexService.allocIndex reserveOk sqCodeSize index (toUInt64 dim)
            (toUInt64 numVectors)) created := by
    unfold IndexService.initIndex
    rw [hf]
  have e2 : BinaryIndexService.initIndex indexBinaryFactory jniUtil reserveOk metric
      indexDescription dim numVectors threadCount parameters
      = initIndexFrom jniUtil parameters
          (fun _ => BinaryIndexService.allocIndex reserveOk .null (toUInt64 dim)
            (toUInt64 numVectors)) bcreated := by
    unfold BinaryIndexService.initIndex
    rw [hbf]
  have e3 : ByteIndexService.initIndex indexFactory jniUtil reserveOk sqCodeSize metric
      indexDescription dim numVectors threadCount parameters
      = initIndexFrom jniUtil parameters
          (fun index => ByteIndexService.allocIndex reserveOk sqCodeSize index (toUInt64 dim)
            (toUInt64 numVectors)) created := by
    unfold ByteIndexService.initIndex
    rw [hf]
  rw [e1, e2, e3]
  refine ⟨⟨?_, ?_, ?_, ?_⟩, ⟨?_, ?_, ?_⟩, ⟨?_, ?_, ?_, ?_⟩⟩
  · exact initIndexFrom_untrained jniUtil parameters _ created hdr hh
  · exact fun ht ha => (initIndexFrom_trained jniUtil parameters _ created hdr hh ht).1 ha
  · exact initIndexFrom_handle_iff jniUtil parameters _ created hdr hh
  · exact float_allocIndex_granted reserveOk sqCodeSize _ _ _
  · exact initIndexFrom_untrained jniUtil parameters _ bcreated bhdr hbh
  · exact fun ht => (initIndexFrom_trained jniUtil parameters _ bcreated bhdr hbh ht).1 rfl
  · rw [initIndexFrom_handle_iff jniUtil parameters _ bcreated bhdr hbh]
    exact ⟨fun h => h.1, fun h => ⟨h, rfl⟩⟩
  · exact initIndexFrom_untrained jniUtil parameters _ created hdr hh
  · exact fun ht ha => (initIndexFrom_trained jniUtil parameters _ created hdr hh ht).1 ha
  · exact initIndexFrom_handle_iff jniUtil parameters _ created hdr hh
  · exact byte_allocIndex_granted reserveOk sqCodeSize _ _ _

/-- Witness for the amended C9: an untrained IVF index is refused by the float service; a
trained HNSW index over flat storage is wrapped by the float service when ten vectors are
expected, its search breadth set by the parameters; and the binary service wraps it
even with `numVectors = -1`, since it pre-sizes nothing. -/
theorem initIndex_handle_iff_witness :
    IndexService.initIndex (fun _ _ _ => .ok sampleUntrainedIVF) sampleJNIUtil sampleReserve
        noScalarQuantizer 0 "IVF4,Flat" 4 10 0
        (fun key => if key = EF_SEARCH then some 3 else none)
      = (.throws NOT_TRAINED, [.injected, .trainedChecked]) ∧
    IndexService.initIndex (fun _ _ _ => .ok sampleHNSW) sampleJNIUtil sampleReserve
        noScalarQuantizer 0 "HNSW16,Flat" 4 10 0
        (fun key => if key = EF_SEARCH then some 3 else none)
      = (.ok (.idmap sampleHeader true
          (.hnsw sampleHeader 40 3 [] true (.flat ⟨sampleHeader, []⟩)) []),
          [.injected, .trainedChecked, .wrapped, .presized]) ∧
    BinaryIndexService.initIndex (fun _ _ => .ok sampleHNSW) sampleJNIUtil sampleReserve 0
        "BHNSW16" 4 (-1) 0 (fun key => if key = EF_SEARCH then some 3 else none)
      = (.ok (.idmap sampleHeader true
          (.hnsw sampleHeader 40 3 [] true (.flat ⟨sampleHeader, []⟩)) []),
          [.injected, .trainedChecked, .wrapped, .presized]) := by
  have h1 := initIndex_handle_iff sampleJNIUtil (fun _ _ _ => .ok sampleUntrainedIVF)
    (fun _ _ => .ok sampleHNSW) sampleReserve noScalarQuantizer 0 "IVF4,Flat" 4 10 0
    (fun key => if key = EF_SEARCH then some 3 else none) sampleUntrainedIVF sampleHNSW
    { sampleHeader with is_trained := false } sampleHeader rfl rfl rfl rfl
  have h2 := initIndex_handle_iff sampleJNIUtil (fun _ _ _ => .ok sampleHNSW)
    (fun _ _ => .ok sampleHNSW) sampleReserve noScalarQuantizer 0 "HNSW16,Flat" 4 10 0
    (fun key => if key = EF_SEARCH then some 3 else none) sampleHNSW sampleHNSW
    sampleHeader sampleHeader rfl rfl rfl rfl
  have h3 := initIndex_handle_iff sampleJNIUtil (fun _ _ _ => .ok sampleHNSW)
    (fun _ _ => .ok sampleHNSW) sampleReserve noScalarQuantizer 0 "BHNSW16" 4 (-1) 0
    (fun key => if key = EF_SEARCH then some 3 else none) sampleHNSW sampleHNSW
    sampleHeader sampleHeader rfl rfl rfl rfl
  exact ⟨h1.1.1 rfl, h2.1.2.1 rfl (by decide), h3.2.1.2.1 rfl⟩

theorem destroy_closed (tree : Index) (w : World) (hc : tree.closed = true) :
    tree.destroy w = .ok w := by
  induction tree with
  | null => rfl
  | foreign addr => simp [Index.closed] at hc
  | flat f => rfl
  | hnsw hdr efConstruction efSearch graph own_fields storage ih =>
    simp only [Index.closed] at hc
    simp only [Index.destroy, ih hc, ite_self]
  | ivf hdr nprobe nlist own_fields quantizer ih =>
    simp only [Index.closed] at hc
    simp only [Index.destroy, ih hc, ite_self]
  | idmap hdr own_fields index id_map ih =>
    simp only [Index.closed] at hc
    simp only [Index.destroy, ih hc, ite_self]
  | other hdr kind => rfl

theorem unwind_closed (what : String) (tree : Index) (w : World) (hc : tree.closed = true) :
    unwind what tree w = (.throws what, w.log (.destroyed tree)) := by
  unfold unwind
  rw [destroy_closed tree _ hc]

/-- The tree the serializer sees once the flat index at `indexPtr` is attached. -/
theorem resolve_attached (heap : List (Int × IndexFlat)) (indexPtr : Int) (f : IndexFlat)
    (hdr : IndexHeader) (own_fields : Bool) (id_map : List Int) (hhdr : IndexHeader)
    (efConstruction efSearch : Int) (graph : List (List Nat)) (hown : Bool)
    (hflat : heap.lookup indexPtr = some f) :
    (Index.idmap hdr own_fields
        (.hnsw hhdr efConstruction efSearch graph hown (.foreign indexPtr)) id_map).resolve heap
      = some (.idmap hdr own_fields
          (.hnsw hhdr efConstruction efSearch graph hown (.flat f)) id_map) := by
  simp [Index.resolve, hflat]

theorem indexReconstruct_valid_eq (read_index : List Nat → Outcome Index)
    (write_index : Index → List Nat × Outcome Unit) (inputBuffer : List Nat)
    (indexPtr : Int) (w : World) (f : IndexFlat)
    (hdr : IndexHeader) (own_fields : Bool) (id_map : List Int) (hhdr : IndexHeader)
    (efConstruction efSearch : Int) (graph : List (List Nat)) (hown : Bool) (storage : Index)
    (hread : read_index inputBuffer = .ok (.idmap hdr own_fields
      (.hnsw hhdr efConstruction efSearch graph hown storage) id_map))
    (hptr0 : indexPtr ≠ 0) (hptr1 : indexPtr ≠ -1)
    (hflat : w.heap.lookup indexPtr = some f) :
    IndexService.indexReconstruct read_index write_index inputBuffer indexPtr w
      = IndexService.attachAndSerialize write_index indexPtr hdr own_fields id_map hhdr
          efConstruction efSearch graph hown w := by
  unfold IndexService.indexReconstruct
  rw [hread]
  simp only [hptr0, hptr1, or_self, if_false, hflat]

theorem attachAndSerialize_success (write_index : Index → List Nat × Outcome Unit)
    (indexPtr : Int) (w : World) (f : IndexFlat)
    (hdr : IndexHeader) (own_fields : Bool) (id_map : List Int) (hhdr : IndexHeader)
    (efConstruction efSearch : Int) (graph : List (List Nat)) (hown : Bool)
    (hflat : w.heap.lookup indexPtr = some f)
    (hwrite : (write_index (.idmap hdr own_fields
      (.hnsw hhdr efConstruction efSearch graph hown (.flat f)) id_map)).2 = .ok ()) :
    IndexService.attachAndSerialize write_index indexPtr hdr own_fields id_map hhdr
        efConstruction efSearch graph hown w
      = (.ok (),
          { w with
            heap := w.heap.filter (fun e => e.1 != indexPtr)
            sink := w.sink ++ (write_index (.idmap hdr own_fields
              (.hnsw hhdr efConstruction efSearch graph hown (.flat f)) id_map)).1
            trace := w.trace ++
              [.attached indexPtr,
               .serialized (.idmap hdr own_fields
                 (.hnsw hhdr efConstruction efSearch graph hown (.flat f)) id_map),
               .deleted indexPtr,
               .detached,
               .destroyed (.idmap hdr own_fields
                 (.hnsw hhdr efConstruction efSearch graph hown .null) id_map)] }) := by
  unfold IndexService.attachAndSerialize
  simp only [World.log]
  rw [resolve_attached _ _ f _ _ _ _ _ _ _ _ hflat]
  simp only [hwrite, World.deleteForeign, hflat, Index.destroy, ite_self, List.append_assoc,
    List.cons_append, List.nil_append]

theorem attachAndSerialize_sink (write_index : Index → List Nat × Outcome Unit)
    (indexPtr : Int) (w : World) (f : IndexFlat)
    (hdr : IndexHeader) (own_fields : Bool) (id_map : List Int) (hhdr : IndexHeader)
    (efConstruction efSearch : Int) (graph : List (List Nat)) (hown : Bool)
    (hflat : w.heap.lookup indexPtr = some f) :
    (IndexService.attachAndSerialize write_index indexPtr hdr own_fields id_map hhdr
        efConstruction efSearch graph hown w).2.sink
      = w.sink ++ (write_index (.idmap hdr own_fields
          (.hnsw hhdr efConstruction efSearch graph hown (.flat f)) id_map)).1 ∧
    ∃ rest, (IndexService.attachAndSerialize write_index indexPtr hdr own_fields id_map hhdr
        efConstruction efSearch graph hown w).2.trace
      = w.trace ++ [.attached indexPtr, .serialized (.idmap hdr own_fields
          (.hnsw hhdr efConstruction efSearch graph hown (.flat f)) id_map)] ++ rest := by
  unfold IndexService.attachAndSerialize
  simp only [World.log]
  rw [resolve_attached _ _ f _ _ _ _ _ _ _ _ hflat]
  dsimp only
  generalize write_index (.idmap hdr own_fields
      (.hnsw hhdr efConstruction efSearch graph hown (.flat f)) id_map) = p
  obtain ⟨bytes, r⟩ := p
  cases r with
  | ok u =>
    simp only [World.deleteForeign, hflat, Index.destroy, ite_self, List.append_assoc,
      List.cons_append, List.nil_append]
    exact ⟨trivial, ⟨_, rfl⟩⟩
  | undefined =>
    simp only [List.append_assoc, List.cons_append, List.nil_append]
    exact ⟨trivial, ⟨[], rfl⟩⟩
  | throws e =>
    cases own_fields <;> cases hown <;>
      simp [unwind, World.log, Index.destroy, World.deleteForeign, hflat]

theorem lookup_filter_ne (heap : List (Int × IndexFlat)) (addr : Int) :
    (heap.filter (fun e => e.1 != addr)).lookup addr = none := by
  induction heap with
  | nil => rfl
  | cons e heap ih =>
    obtain ⟨a, f⟩ := e
    by_cases h : a = addr
    · simp only [List.filter, h, bne_self_eq_false]
      exact ih
    · have hb : (a != addr) = true := by simp [h]
      have hb2 : (addr == a) = false := by simp [Ne.symm h]
      simp only [List.filter, hb, List.lookup, hb2]
      exact ih

/-- C5. When the input buffer deserializes to an identifier map over an HNSW graph and
`indexPtr` is a valid handle of a flat index `f`, the bytes `indexReconstruct` sends to
the sink are the serialization of the deserialized tree with the graph's storage
replaced by `f`: header, graph, breadths and identifier list as deserialized, the
storage the buffer carried discarded, the stored vectors those of `f`. The attachment
is recorded before the serialization, and the call returns normally when the
serializer does. -/
theorem indexReconstruct_writes_attached_tree (read_index : List Nat → Outcome Index)
    (write_index : Index → List Nat × Outcome Unit) (inputBuffer : List Nat)
    (indexPtr : Int) (w : World) (f : IndexFlat)
    (hdr : IndexHeader) (own_fields : Bool) (id_map : List Int) (hhdr : IndexHeader)
    (efConstruction efSearch : Int) (graph : List (List Nat)) (hown : Bool) (storage : Index)
    (hread : read_index inputBuffer = .ok (.idmap hdr own_fields
      (.hnsw hhdr efConstruction efSearch graph hown storage) id_map))
    (hptr0 : indexPtr ≠ 0) (hptr1 : indexPtr ≠ -1)
    (hflat : w.heap.lookup indexPtr = some f) :
    (IndexService.indexReconstruct read_index write_index inputBuffer indexPtr w).2.sink
      = w.sink ++ (write_index (.idmap hdr own_fields
          (.hnsw hhdr efConstruction efSearch graph hown (.flat f)) id_map)).1 ∧
    (∃ rest,
      (IndexService.indexReconstruct read_index write_index inputBuffer indexPtr w).2.trace
        = w.trace ++ [.attached indexPtr, .serialized (.idmap hdr own_fields
            (.hnsw hhdr efConstruction efSearch graph hown (.flat f)) id_map)] ++ rest) ∧
    ((write_index (.idmap hdr own_fields
        (.hnsw hhdr efConstruction efSearch graph hown (.flat f)) id_map)).2 = .ok () →
      (IndexService.indexReconstruct read_index write_index inputBuffer indexPtr w).1
        = .ok ()) := by
  rw [indexReconstruct_valid_eq read_index write_index inputBuffer indexPtr w f hdr own_fields
    id_map hhdr efConstruction efSearch graph hown storage hread hptr0 hptr1 hflat]
  have h := attachAndSerialize_sink write_index indexPtr w f hdr own_fields id_map hhdr
    efConstruction efSearch graph hown hflat
  refine ⟨h.1, h.2, fun hw => ?_⟩
  rw [attachAndSerialize_success write_index indexPtr w f hdr own_fields id_map hhdr
    efConstruction efSearch graph hown hflat hw]

/-- C7. On a successful `indexReconstruct` call the recorded events are, in this order:
attach, serialize, destroy the flat index at `indexPtr`, detach, destroy the tree. The
tree handed to its destructor has a null storage pointer; the flat index is destroyed
exactly once, is no longer allocated afterwards, and the call ends normally, so the
tree's teardown does not destroy it again. -/
theorem indexReconstruct_teardown_order (read_index : List Nat → Outcome Index)
    (write_index : Index → List Nat × Outcome Unit) (inputBuffer : List Nat)
    (indexPtr : Int) (w : World) (f : IndexFlat)
    (hdr : IndexHeader) (own_fields : Bool) (id_map : List Int) (hhdr : IndexHeader)
    (efConstruction efSearch : Int) (graph : List (List Nat)) (hown : Bool) (storage : Index)
    (hread : read_index inputBuffer = .ok (.idmap hdr own_fields
      (.hnsw hhdr efConstruction efSearch graph hown storage) id_map))
    (hptr0 : indexPtr ≠ 0) (hptr1 : indexPtr ≠ -1)
    (hflat : w.heap.lookup indexPtr = some f)
    (hwrite : (write_index (.idmap hdr own_fields
      (.hnsw hhdr efConstruction efSearch graph hown (.flat f)) id_map)).2 = .ok ()) :
    (IndexService.indexReconstruct read_index write_index inputBuffer indexPtr w).1 = .ok () ∧
    (IndexService.indexReconstruct read_index write_index inputBuffer indexPtr w).2.trace
      = w.trace ++
          [.attached indexPtr,
           .serialized (.idmap hdr own_fields
             (.hnsw hhdr efConstruction efSearch graph hown (.flat f)) id_map),
           .deleted indexPtr,
           .detached,
           .destroyed (.idmap hdr own_fields
             (.hnsw hhdr efConstruction efSearch graph hown .null) id_map)] ∧
    (List.drop w.trace.length
        (IndexService.indexReconstruct read_index write_index inputBuffer indexPtr w).2.trace
      ).count (.deleted indexPtr) = 1 ∧
    (IndexService.indexReconstruct read_index write_index inputBuffer indexPtr w).2.heap.lookup
      indexPtr = none := by
  rw [indexReconstruct_valid_eq read_index write_index inputBuffer indexPtr w f hdr own_fields
    id_map hhdr efConstruction efSearch graph hown storage hread hptr0 hptr1 hflat,
    attachAndSerialize_success write_index indexPtr w f hdr own_fields id_map hhdr
    efConstruction efSearch graph hown hflat hwrite]
  refine ⟨rfl, rfl, ?_, lookup_filter_ne _ _⟩
  simp only [List.drop_left]
  simp [List.count_cons]

/-- Witness for C5: the graph-only buffer and the flat index at address 4096. -/
theorem indexReconstruct_writes_attached_tree_witness :
    (IndexService.indexReconstruct sampleReader sampleWriter [1] 4096 sampleWorld).2.sink
      = [2] :=
  (indexReconstruct_writes_attached_tree sampleReader sampleWriter [1] 4096 sampleWorld
    sampleFlat { sampleHeader with ntotal := 2 } true [10, 11]
    { sampleHeader with ntotal := 2 } 40 16 [[1], [0]] true (.flat ⟨sampleHeader, []⟩)
    rfl (by decide) (by decide) rfl).1

/-- Witness for C7: the graph-only buffer and the flat index at address 4096. -/
theorem indexReconstruct_teardown_order_witness :
    (IndexService.indexReconstruct sampleReader sampleWriter [1] 4096 sampleWorld).1 = .ok () ∧
    (IndexService.indexReconstruct sampleReader sampleWriter [1] 4096 sampleWorld).2.heap
      = [] := by
  have h := indexReconstruct_teardown_order sampleReader sampleWriter [1] 4096 sampleWorld
    sampleFlat { sampleHeader with ntotal := 2 } true [10, 11]
    { sampleHeader with ntotal := 2 } 40 16 [[1], [0]] true (.flat ⟨sampleHeader, []⟩)
    rfl (by decide) (by decide) rfl rfl
  exact ⟨h.1, by decide⟩

/-- C6. The three validations of `indexReconstruct` come before any attachment or write.
For a deserialized tree `tree` (not null, all parts its own): if it is not an identifier
map the call fails with the error naming the top level; else if the wrapped index is
not an HNSW graph it fails with the error naming the inner level; else if `indexPtr` is
0 or -1 it fails with the invalid-pointer error. In each case the world afterwards is
the world before plus the record that the deserialized tree was destroyed: the heap of
flat indexes and the sink are unchanged and nothing was attached. -/
theorem indexReconstruct_validation_failures (read_index : List Nat → Outcome Index)
    (write_index : Index → List Nat × Outcome Unit) (inputBuffer : List Nat)
    (indexPtr : Int) (w : World) (tree : Index)
    (hread : read_index inputBuffer = .ok tree) (hclosed : tree.closed = true) :
    (tree ≠ .null → (∀ hdr own_fields index id_map, tree ≠ .idmap hdr own_fields index id_map) →
      IndexService.indexReconstruct read_index write_index inputBuffer indexPtr w
        = (.throws EXPECTED_IDMAP, w.log (.destroyed tree))) ∧
    (∀ hdr own_fields index id_map, tree = .idmap hdr own_fields index id_map →
      (∀ hhdr efConstruction efSearch graph hown storage,
        index ≠ .hnsw hhdr efConstruction efSearch graph hown storage) →
      IndexService.indexReconstruct read_index write_index inputBuffer indexPtr w
        = (.throws EXPECTED_HNSW, w.log (.destroyed tree))) ∧
    (∀ hdr own_fields id_map hhdr efConstruction efSearch graph hown storage,
      tree = .idmap hdr own_fields
        (.hnsw hhdr efConstruction efSearch graph hown storage) id_map →
      (indexPtr = 0 ∨ indexPtr = -1) →
      IndexService.indexReconstruct read_index write_index inputBuffer indexPtr w
        = (.throws INVALID_FLAT_POINTER, w.log (.destroyed tree))) ∧
    (w.log (.destroyed tree)).heap = w.heap ∧
    (w.log (.destroyed tree)).sink = w.sink ∧
    (w.log (.destroyed tree)).trace = w.trace ++ [.destroyed tree] := by
  refine ⟨?_, ?_, ?_, rfl, rfl, rfl⟩
  · intro hnull hnot
    unfold IndexService.indexReconstruct
    rw [hread]
    cases tree with
    | null => exact absurd rfl hnull
    | idmap hdr own_fields index id_map => exact absurd rfl (hnot _ _ _ _)
    | foreign addr => exact unwind_closed _ _ _ hclosed
    | flat f => exact unwind_closed _ _ _ hclosed
    | hnsw hdr efConstruction efSearch graph own_fields storage =>
      exact unwind_closed _ _ _ hclosed
    | ivf hdr nprobe nlist own_fields quantizer => exact unwind_closed _ _ _ hclosed
    | other hdr kind => exact unwind_closed _ _ _ hclosed
  · intro hdr own_fields index id_map ht hnot
    subst ht
    unfold IndexService.indexReconstruct
    rw [hread]
    cases index with
    | hnsw hhdr efConstruction efSearch graph hown storage =>
      exact absurd rfl (hnot _ _ _ _ _ _)
    | null => exact unwind_closed _ _ _ hclosed
    | foreign addr => exact unwind_closed _ _ _ hclosed
    | flat f => exact unwind_closed _ _ _ hclosed
    | ivf hdr nprobe nlist own_fields quantizer => exact unwind_closed _ _ _ hclosed
    | idmap hdr own_fields index id_map => exact unwind_closed _ _ _ hclosed
    | other hdr kind => exact unwind_closed _ _ _ hclosed
  · intro hdr own_fields id_map hhdr efConstruction efSearch graph hown storage ht hptr
    subst ht
    unfold IndexService.indexReconstruct
    rw [hread]
    simp only [hptr, if_true]
    exact unwind_closed _ _ _ hclosed

/-- Witness for C6: a bare flat index in the buffer, an identifier map over a flat index
in the buffer, and a graph-only buffer offered with the null handle. -/
theorem indexReconstruct_validation_failures_witness :
    IndexService.indexReconstruct sampleReader sampleWriter [2] 4096 sampleWorld
      = (.throws EXPECTED_IDMAP, sampleWorld.log (.destroyed (.flat sampleFlat))) ∧
    IndexService.indexReconstruct sampleReader sampleWriter [3] 4096 sampleWorld
      = (.throws EXPECTED_HNSW,
          sampleWorld.log (.destroyed (.idmap sampleHeader true (.flat sampleFlat) []))) ∧
    IndexService.indexReconstruct sampleReader sampleWriter [1] 0 sampleWorld
      = (.throws INVALID_FLAT_POINTER, sampleWorld.log (.destroyed sampleGraphTree)) :=
  ⟨(indexReconstruct_validation_failures sampleReader sampleWriter [2] 4096 sampleWorld
      (.flat sampleFlat) rfl rfl).1 (fun h => by cases h) (fun _ _ _ _ h => by cases h),
   (indexReconstruct_validation_failures sampleReader sampleWriter [3] 4096 sampleWorld
      (.idmap sampleHeader true (.flat sampleFlat) []) rfl rfl).2.1 _ _ _ _ rfl
      (fun _ _ _ _ _ _ h => by cases h),
   (indexReconstruct_validation_failures sampleReader sampleWriter [1] 0 sampleWorld
      sampleGraphTree rfl rfl).2.2.1 _ _ _ _ _ _ _ _ _ rfl (Or.inl rfl)⟩

theorem resolve_closed (heap : List (Int × IndexFlat)) (tree : Index)
    (hc : tree.closed = true) : tree.resolve heap = some tree := by
  induction tree with
  | null => rfl
  | foreign addr => simp [Index.closed] at hc
  | flat f => rfl
  | hnsw hdr efConstruction efSearch graph own_fields storage ih =>
    simp only [Index.closed] at hc
    simp only [Index.resolve, ih hc, Option.map_some']
  | ivf hdr nprobe nlist own_fields quantizer ih =>
    simp only [Index.closed] at hc
    simp only [Index.resolve, ih hc, Option.map_some']
  | idmap hdr own_fields index id_map ih =>
    simp only [Index.closed] at hc
    simp only [Index.resolve, ih hc, Option.map_some']
  | other hdr kind => rfl

/-- The shared body of `writeIndex` on a live handle, in terms of how serialization
(`r1`, emitting `bytes`) and flush (`r2`) end. -/
theorem writeIndexWith_cases (serialize : Index → List Nat × Outcome Unit)
    (flush : List Nat → Outcome Unit) (isOpenSearchIOWriter : Bool) (idMapAddress : Int)
    (w : World) (idMap : Index) (bytes : List Nat) (r1 r2 : Outcome Unit)
    (hlive : w.handles.lookup idMapAddress = some idMap) (hclosed : idMap.closed = true)
    (hs : serialize idMap = (bytes, r1)) (hf : flush (w.sink ++ bytes) = r2) :
    ((writeIndexWith serialize flush isOpenSearchIOWriter idMapAddress w).1 = .ok () ↔
      r1 = .ok () ∧ (isOpenSearchIOWriter = true → r2 = .ok ())) ∧
    (∀ e, r1 = .throws e →
      (writeIndexWith serialize flush isOpenSearchIOWriter idMapAddress w).1
        = .throws WRITE_FAILED) ∧
    (∀ e, r1 = .ok () → isOpenSearchIOWriter = true → r2 = .throws e →
      (writeIndexWith serialize flush isOpenSearchIOWriter idMapAddress w).1
        = .throws WRITE_FAILED) ∧
    (r1 = .ok () → isOpenSearchIOWriter = true →
      (∃ rest, (writeIndexWith serialize flush isOpenSearchIOWriter idMapAddress w).2.trace
          = w.trace ++ [.serialized idMap, .flushed] ++ rest) ∧
      (List.drop w.trace.length
        (writeIndexWith serialize flush isOpenSearchIOWriter idMapAddress w).2.trace).count
          .flushed = 1) ∧
    (w.sink ++ bytes
      = (writeIndexWith serialize flush isOpenSearchIOWriter idMapAddress w).2.sink) := by
  unfold writeIndexWith
  rw [hlive]
  simp only [resolve_closed _ _ hclosed, writeIndexTry, hs, World.log]
  cases r1 with
  | ok u =>
    cases isOpenSearchIOWriter with
    | false => simp [destroy_closed _ _ hclosed, catchAsWriteFailed]
    | true =>
      simp only [hf, if_true]
      cases r2 with
      | ok u2 =>
        simp only [destroy_closed _ _ hclosed, catchAsWriteFailed, List.append_assoc]
        simp [List.count_cons]
      | throws e =>
        simp only [destroy_closed _ _ hclosed, catchAsWriteFailed, List.append_assoc]
        simp [List.count_cons]
      | undefined =>
        simp only [List.append_assoc]
        simp [List.count_cons]
  | throws e => simp [destroy_closed _ _ hclosed, catchAsWriteFailed]
  | undefined => simp

theorem writeIndexWith_contract (serialize : Index → List Nat × Outcome Unit)
    (flush : List Nat → Outcome Unit) (isOpenSearchIOWriter : Bool) (idMapAddress : Int)
    (w : World) (idMap : Index)
    (hlive : w.handles.lookup idMapAddress = some idMap) (hclosed : idMap.closed = true) :
    PersistenceContract serialize flush isOpenSearchIOWriter w idMap
      (writeIndexWith serialize flush isOpenSearchIOWriter idMapAddress w) := by
  have h := writeIndexWith_cases serialize flush isOpenSearchIOWriter idMapAddress w idMap
    (serialize idMap).1 (serialize idMap).2 (flush (w.sink ++ (serialize idMap).1))
    hlive hclosed rfl rfl
  exact ⟨h.1, h.2.1, h.2.2.1, h.2.2.2.1⟩

/-- C10. For a live handle and any output writer, each `writeIndex` (float, binary, byte)
returns normally exactly when serialization succeeds and, for a flush-capable writer,
the flush succeeds; a failure raised by serialization or by the flush is signalled as
'Failed to write index to disk' whatever its message was; and when the writer is
flush-capable and serialization succeeded, the flush is invoked exactly once, right
after the serialization. -/
theorem writeIndex_contract (writeIndex writeIndexBinary : Index → List Nat × Outcome Unit)
    (flush : List Nat → Outcome Unit) (isOpenSearchIOWriter : Bool) (idMapAddress : Int)
    (w : World) (idMap : Index)
    (hlive : w.handles.lookup idMapAddress = some idMap) (hclosed : idMap.closed = true) :
    PersistenceContract writeIndex flush isOpenSearchIOWriter w idMap
      (IndexService.writeIndex writeIndex flush isOpenSearchIOWriter idMapAddress w) ∧
    PersistenceContract writeIndexBinary flush isOpenSearchIOWriter w idMap
      (BinaryIndexService.writeIndex writeIndexBinary flush isOpenSearchIOWriter
        idMapAddress w) ∧
    PersistenceContract writeIndex flush isOpenSearchIOWriter w idMap
      (ByteIndexService.writeIndex writeIndex flush isOpenSearchIOWriter idMapAddress w) :=
  ⟨writeIndexWith_contract writeIndex flush isOpenSearchIOWriter idMapAddress w idMap
      hlive hclosed,
   writeIndexWith_contract writeIndexBinary flush isOpenSearchIOWriter idMapAddress w idMap
      hlive hclosed,
   writeIndexWith_contract writeIndex flush isOpenSearchIOWriter idMapAddress w idMap
      hlive hclosed⟩

/-- Witness for C10: the handle 8192 of the sample world, a serializer that succeeds and
a flush that fails with an I/O message. -/
theorem writeIndex_contract_witness :
    (IndexService.writeIndex sampleWriter (fun _ => .throws "stream closed") true 8192
        sampleWorld).1 = .throws WRITE_FAILED ∧
    (ByteIndexService.writeIndex sampleWriter (fun _ => .ok ()) true 8192 sampleWorld).1
      = .ok () := by
  have h1 := (writeIndex_contract sampleWriter sampleWriter (fun _ => .throws "stream closed")
    true 8192 sampleWorld sampleGraphTree rfl rfl).1
  have h2 := (writeIndex_contract sampleWriter sampleWriter (fun _ => .ok ())
    true 8192 sampleWorld sampleGraphTree rfl rfl).2.2
  exact ⟨h1.2.2.1 "stream closed" rfl rfl rfl, h2.1.2 ⟨rfl, fun _ => rfl⟩⟩

theorem chunkSizes_step_full (k : Nat) (hk : k % 1000 = 0) :
    chunkSizes k ++ [1000] = chunkSizes (k + 1000) := by
  unfold chunkSizes
  have h1 : (k + 1000) / 1000 = k / 1000 + 1 := by omega
  have h2 : (k + 1000) % 1000 = 0 := by omega
  simp only [h1, h2, hk, if_true, List.append_nil, List.replicate_succ']

theorem chunkSizes_step_last (k n : Nat) (hk : k % 1000 = 0) (hlt : k < n)
    (hn : n - k < 1000) : chunkSizes k ++ [n - k] = chunkSizes n := by
  unfold chunkSizes
  have h1 : n / 1000 = k / 1000 := by omega
  have h2 : n % 1000 = n - k := by omega
  have h3 : ¬ (n - k = 0) := by omega
  simp only [h1, h2, hk, h3, if_true, if_false, List.append_nil]

/-- When the chunking loop ends normally, all `n` vectors have been handed over and the
library calls carried the sizes `chunkSizes n`. -/
theorem insertLoop_calls (dim n : Nat) (inputVectors ids : List Int) (fuel : Nat)
    (s t : ByteLoopState) (h : CallsInv n s)
    (hrun : ByteIndexService.insertLoop dim n inputVectors ids fuel s = some (.ok (), t)) :
    t.id = n ∧ t.addCalls = chunkSizes n := by
  induction fuel generalizing s with
  | zero =>
    obtain ⟨h1, h2, _⟩ := h
    unfold ByteIndexService.insertLoop at hrun
    by_cases hlt : s.id < n
    · simp [hlt] at hrun
    · simp only [hlt, if_false, Option.some.injEq, Prod.mk.injEq, true_and] at hrun
      have hid : s.id = n := by omega
      rw [← hrun, h2, hid]
      exact ⟨rfl, rfl⟩
  | succ fuel ih =>
    obtain ⟨h1, h2, h3⟩ := h
    rw [ByteIndexService.insertLoop] at hrun
    by_cases hlt : s.id < n
    · obtain ⟨hb, hmod⟩ := h3 hlt
      simp only [hlt, if_true] at hrun
      cases hcb : ByteIndexService.convertBatch dim s.id
          (if n - s.id < s.batchSize then n - s.id else s.batchSize) inputVectors ids
          s.buffers with
      | ok b =>
        rw [hcb] at hrun
        simp only at hrun
        cases hadd : s.idMap.add_with_ids
            ((if n - s.id < s.batchSize then n - s.id else s.batchSize : Nat) : Int)
            b.inputFloatVectors b.floatVectorsIds with
        | ok m =>
          rw [hadd] at hrun
          refine ih _ ?_ hrun
          by_cases hsmall : n - s.id < s.batchSize
          · simp only [hsmall, if_true]
            rw [hb] at hsmall
            refine ⟨?_, ?_, ?_⟩
            · show s.id + (n - s.id) ≤ n
              omega
            · show s.addCalls ++ [n - s.id] = chunkSizes (s.id + (n - s.id))
              rw [h2, show s.id + (n - s.id) = n by omega]
              exact chunkSizes_step_last s.id n hmod hlt hsmall
            · show s.id + (n - s.id) < n → _
              intro hcontra
              omega
          · simp only [hsmall, if_false]
            rw [hb] at hsmall ⊢
            refine ⟨?_, ?_, ?_⟩
            · show s.id + 1000 ≤ n
              omega
            · show s.addCalls ++ [1000] = chunkSizes (s.id + 1000)
              rw [h2]
              exact chunkSizes_step_full s.id hmod
            · show s.id + 1000 < n → (1000 = 1000 ∧ (s.id + 1000) % 1000 = 0)
              intro _
              exact ⟨rfl, by omega⟩
        | throws u =>
          rw [hadd] at hrun
          simp at hrun
        | undefined =>
          rw [hadd] at hrun
          simp at hrun
      | throws u =>
        rw [hcb] at hrun
        simp at hrun
      | undefined =>
        rw [hcb] at hrun
        simp at hrun
    · simp only [hlt, if_false, Option.some.injEq, Prod.mk.injEq, true_and] at hrun
      have hid : s.id = n := by omega
      rw [← hrun, h2, hid]
      exact ⟨rfl, rfl⟩

theorem chunkSizes_length (n : Nat) : (chunkSizes n).length = (n + 999) / 1000 := by
  unfold chunkSizes
  by_cases h : n % 1000 = 0
  · simp only [h, if_true, List.append_nil, List.length_replicate]
    omega
  · simp only [h, if_false, List.length_append, List.length_replicate, List.length_singleton]
    omega

theorem chunkSizes_bounds (n c : Nat) (hc : c ∈ chunkSizes n) : 1 ≤ c ∧ c ≤ 1000 := by
  unfold chunkSizes at hc
  rw [List.mem_append] at hc
  rcases hc with hc | hc
  · rw [List.mem_replicate] at hc
    omega
  · by_cases h : n % 1000 = 0
    · simp [h] at hc
    · simp only [h, if_false, List.mem_singleton] at hc
      omega

theorem chunkSizes_dropLast (n c : Nat) (hc : c ∈ (chunkSizes n).dropLast) : c = 1000 := by
  unfold chunkSizes at hc
  by_cases h : n % 1000 = 0
  · simp only [h, if_true, List.append_nil, List.dropLast_replicate, List.mem_replicate] at hc
    exact hc.2
  · simp only [h, if_false, List.dropLast_concat, List.mem_replicate] at hc
    exact hc.2

theorem chunkSizes_sum (n : Nat) : (chunkSizes n).sum = n := by
  unfold chunkSizes
  by_cases h : n % 1000 = 0
  · simp only [h, if_true, List.append_nil, List.sum_replicate, smul_eq_mul]
    omega
  · simp only [h, if_false, List.sum_append, List.sum_replicate, smul_eq_mul, List.sum_cons,
      List.sum_nil]
    omega

theorem initialLoopState_loopInv (dim n : Nat) (inputVectors ids : List Int)
    (idMap : IndexIDMap ℚ) :
    LoopInv dim n inputVectors ids idMap (ByteIndexService.initialLoopState dim idMap) := by
  refine ⟨Nat.zero_le _, ?_, ?_, ?_, ?_, ?_, ?_⟩
  · show 1 ≤ 1000
    omega
  · exact Nat.le_refl _
  · show 0 = 0 * dim
    omega
  · show (List.replicate (1000 * (dim : Int)).toNat (0 : ℚ)).length = 1000 * dim
    rw [List.length_replicate]
    omega
  · exact List.length_replicate _ _
  · show idMap = appendWidened dim inputVectors ids idMap 0
    simp [appendWidened]

theorem initialLoopState_callsInv (dim : Int) (n : Nat) (idMap : IndexIDMap ℚ) :
    CallsInv n (ByteIndexService.initialLoopState dim idMap) :=
  ⟨Nat.zero_le _, by show ([] : List Nat) = chunkSizes 0; simp [chunkSizes],
    fun _ => ⟨rfl, rfl⟩⟩

theorem convertElement_undefined_iff (dim i : Nat) (inputVectors : List Int)
    (s : ByteBatchState) (j : Nat) :
    ByteIndexService.convertElement dim i inputVectors s j = .undefined ↔
      (inputVectors.length ≤ s.iter ∨ s.inputFloatVectors.length ≤ i * dim + j) := by
  unfold ByteIndexService.convertElement
  by_cases h1 : s.iter < inputVectors.length
  · rw [List.getElem?_eq_getElem h1]
    by_cases h2 : i * dim + j < s.inputFloatVectors.length
    · simp only [h2, if_true]
      constructor
      · intro h
        cases h
      · intro h
        omega
    · simp only [h2, if_false, true_iff]
      omega
  · rw [List.getElem?_eq_none (by omega)]
    simp only [true_iff]
    omega

theorem convertVector_undefined_of_out_of_bounds (dim id : Nat) (inputVectors ids : List Int)
    (s : ByteBatchState) (i : Nat)
    (h : ids.length ≤ id + i ∨ s.floatVectorsIds.length ≤ i) :
    ByteIndexService.convertVector dim id inputVectors ids s i = .undefined := by
  unfold ByteIndexService.convertVector
  by_cases h1 : id + i < ids.length
  · rw [List.getElem?_eq_getElem h1]
    have h2 : ¬ (i < s.floatVectorsIds.length) := by omega
    simp only [h2, if_false]
  · rw [List.getElem?_eq_none (by omega)]

/-- C13. For `dim ≥ 1`, a signed-byte batch with `n = ⌊elementCount / dim⌋ ≥ 1` vectors
and `n` identifiers (`idCount = n`), inserted into an index storing vectors of width
`dim`, the chunking loop of `ByteIndexService::insertToIndex` ends normally (given fuel
for `n` iterations). It makes `⌈n / 1000⌉` library insertion calls, whose sizes are
`chunkSizes n`: each between 1 and 1000, every one but the last exactly 1000, summing to
`n`. No access is out of bounds: an unchecked read of the input or of the identifiers,
or a write to the `1000 * dim`-element float buffer or the 1000-element identifier
buffer, outside its array makes the conversion undefined, and the call is not. The
sizes are within the `int` range the source computes in. -/
theorem byte_insertToIndex_chunking (dim n fuel : Nat) (threadCount : Int)
    (inputVectors ids : List Int) (idMap : IndexIDMap ℚ)
    (hdim : 1 ≤ dim) (hn : n = inputVectors.length / dim) (hn1 : 1 ≤ n)
    (hids : ids.length = n) (hwidth : idMap.code_elems = dim)
    (hbuf : 1000 * (dim : Int) ≤ INT_MAX) (hcount : (n : Int) ≤ INT_MAX)
    (hfuel : n ≤ fuel) :
    (∃ m, ByteIndexService.insertToIndexTrace fuel dim n threadCount inputVectors ids idMap
      = some (.ok (), m, chunkSizes n)) ∧
    (chunkSizes n).length = (n + 999) / 1000 ∧
    (∀ c ∈ chunkSizes n, 1 ≤ c ∧ c ≤ 1000) ∧
    (∀ c ∈ (chunkSizes n).dropLast, c = 1000) ∧
    (chunkSizes n).sum = n ∧
    (ByteIndexService.initialLoopState dim idMap).buffers.inputFloatVectors.length
      = 1000 * dim ∧
    (ByteIndexService.initialLoopState dim idMap).buffers.floatVectorsIds.length = 1000 ∧
    (∀ i j s, ByteIndexService.convertElement dim i inputVectors s j = .undefined ↔
      (inputVectors.length ≤ s.iter ∨ s.inputFloatVectors.length ≤ i * dim + j)) ∧
    (∀ id i s, (ids.length ≤ id + i ∨ s.floatVectorsIds.length ≤ i) →
      ByteIndexService.convertVector dim id inputVectors ids s i = .undefined) := by
  have hinv := initialLoopState_loopInv dim n inputVectors ids idMap
  refine ⟨?_, chunkSizes_length n, chunkSizes_bounds n, chunkSizes_dropLast n,
    chunkSizes_sum n, hinv.2.2.2.2.1, hinv.2.2.2.2.2.1,
    fun i j s => convertElement_undefined_iff dim i inputVectors s j,
    fun id i s h => convertVector_undefined_of_out_of_bounds dim id inputVectors ids s i h⟩
  have hINT : INT_MAX = 2147483647 := rfl
  have htoNat : ((dim : Int)).toNat = dim := Int.toNat_ofNat dim
  have hnv : ByteIndexService.numVectors inputVectors.length (dim : Int) = .ok (n : Int) := by
    have := byte_numVectors_eq inputVectors.length (dim : Int) (by omega) (by omega)
      (by rw [htoNat, ← hn]; exact hcount)
    rw [htoNat, ← hn] at this
    exact this
  have hshape := (byte_insert_validated fuel (dim : Int) (n : Int) threadCount inputVectors
    ids idMap (n : Int) (by omega) hnv (by omega) rfl).1
  have hA : ¬ (INT_MAX < 1000 * (dim : Int)) := by omega
  rw [if_neg hA, htoNat, Int.toNat_ofNat] at hshape
  have hle : n * dim ≤ inputVectors.length := by
    rw [hn]
    exact Nat.div_mul_le_self _ _
  obtain ⟨t, ht, ht2⟩ := insertLoop_ok dim n inputVectors ids idMap hwidth hle (by omega)
    fuel _ (by show n - 0 ≤ fuel; omega) hinv
  have hcalls := insertLoop_calls dim n inputVectors ids fuel _ t
    (initialLoopState_callsInv (dim : Int) n idMap) ht
  refine ⟨t.idMap, ?_⟩
  rw [hshape, ht, Option.map_some', hcalls.2]

/-- Witness for C13: 2500 byte vectors of width 2 are handed to the library in three
calls of 1000, 1000 and 500 vectors. -/
theorem byte_insertToIndex_chunking_witness :
    (∃ m, ByteIndexService.insertToIndexTrace 2500 2 2500 0 (List.replicate 5000 7)
        ((List.range 2500).map Int.ofNat) ⟨2, 2, [], 0, []⟩
      = some (.ok (), m, chunkSizes 2500)) ∧
    chunkSizes 2500 = [1000, 1000, 500] :=
  ⟨(byte_insertToIndex_chunking 2 2500 2500 0 (List.replicate 5000 7)
      ((List.range 2500).map Int.ofNat) ⟨2, 2, [], 0, []⟩ (by omega)
      (by rw [List.length_replicate]) (by omega)
      (by rw [List.length_map, List.length_range]) rfl
      (by unfold INT_MAX; omega) (by unfold INT_MAX; omega) (Nat.le_refl _)).1,
   by decide⟩

theorem lookup_storeFlat (heap : List (Int × IndexFlat)) (addr : Int) (f g : IndexFlat)
    (h : heap.lookup addr = some f) :
    (heap.map (fun e => if e.1 == addr then (addr, g) else e)).lookup addr = some g := by
  induction heap with
  | nil => simp [List.lookup] at h
  | cons e heap ih =>
    obtain ⟨a, v⟩ := e
    rw [List.map_cons]
    by_cases ha : a = addr
    · subst ha
      have hhead : (if ((a, v).1 == a) = true then (a, g) else (a, v)) = (a, g) := by simp
      dsimp only
      rw [hhead]
      simp [List.lookup]
    · have hb : (addr == a) = false := by simp [Ne.symm ha]
      have hhead : (if ((a, v).1 == addr) = true then (addr, g) else (a, v)) = (a, v) := by
        simp [ha]
      simp only [List.lookup, hb] at h
      dsimp only
      rw [hhead]
      simp only [List.lookup, hb]
      exact ih h

theorem vectorsOf_append {α : Type} (d nt k : Nat) (codes x : List α)
    (hwf : codes.length = nt * d) :
    vectorsOf d (nt + k) (codes ++ x.take (k * d))
      = vectorsOf d nt codes ++ vectorsOf d k x :=
  rows_append (⟨d, d, codes, nt, List.replicate nt 0⟩ : IndexIDMap α)
    ⟨d, d, codes ++ x.take (k * d), nt + k, []⟩ k x ⟨List.length_replicate _ _, hwf⟩
    rfl rfl rfl

/-- C12. `addVectorsToFlatIndex` fails and leaves the world, the flat index included,
unchanged whenever the handle is `≤ 0`, the vector pointer is null, `numVectors ≤ 0` or
`dim ≤ 0`, and whenever `dim` differs from the dimensionality of the index behind the
handle; the checks run in this order and the last one raises the dimension-mismatch
error. With a valid handle, an array holding `numVectors` vectors and a matching
dimension, the call returns normally and the index holds its previous elements
followed by the `numVectors` new vectors in input order: the count grows by
`numVectors` and the earlier vectors are unchanged. -/
theorem addVectorsToFlatIndex_contract (indexPtr numVectors dim : Int)
    (vectors : Option (List ℚ)) (w : World) :
    (indexPtr ≤ 0 →
      IndexService.addVectorsToFlatIndex indexPtr numVectors dim vectors w
        = (.throws INDEX_POINTER_NULL, w)) ∧
    (0 < indexPtr → vectors = none →
      IndexService.addVectorsToFlatIndex indexPtr numVectors dim vectors w
        = (.throws INPUT_VECTORS_NULL, w)) ∧
    (0 < indexPtr → vectors ≠ none → (numVectors ≤ 0 ∨ dim ≤ 0) →
      IndexService.addVectorsToFlatIndex indexPtr numVectors dim vectors w
        = (.throws INVALID_COUNTS, w)) ∧
    ((indexPtr ≤ 0 ∨ vectors = none ∨ numVectors ≤ 0 ∨ dim ≤ 0) →
      ∃ what, IndexService.addVectorsToFlatIndex indexPtr numVectors dim vectors w
        = (.throws what, w)) ∧
    (∀ index, w.heap.lookup indexPtr = some index → (index.hdr.d : Int) ≠ dim →
      (∃ what, IndexService.addVectorsToFlatIndex indexPtr numVectors dim vectors w
        = (.throws what, w)) ∧
      (0 < indexPtr → vectors ≠ none → 0 < numVectors → 0 < dim →
        IndexService.addVectorsToFlatIndex indexPtr numVectors dim vectors w
          = (.throws DIMENSION_MISMATCH, w))) ∧
    (∀ index x, 0 < indexPtr → vectors = some x → 0 < numVectors → 0 < dim →
      w.heap.lookup indexPtr = some index → (index.hdr.d : Int) = dim →
      numVectors.toNat * index.hdr.d ≤ x.length →
      ∃ added, IndexService.addVectorsToFlatIndex indexPtr numVectors dim vectors w
          = (.ok (), w.storeFlat indexPtr added) ∧
        (w.storeFlat indexPtr added).heap.lookup indexPtr = some added ∧
        added.codes = index.codes ++ x.take (numVectors.toNat * index.hdr.d) ∧
        added.hdr.ntotal = index.hdr.ntotal + numVectors.toNat ∧
        added.hdr.d = index.hdr.d ∧
        (index.codes.length = index.hdr.ntotal * index.hdr.d →
          vectorsOf added.hdr.d added.hdr.ntotal added.codes
            = vectorsOf index.hdr.d index.hdr.ntotal index.codes
              ++ vectorsOf index.hdr.d numVectors.toNat x)) := by
  have hA : indexPtr ≤ 0 →
      IndexService.addVectorsToFlatIndex indexPtr numVectors dim vectors w
        = (.throws INDEX_POINTER_NULL, w) := by
    intro h
    unfold IndexService.addVectorsToFlatIndex
    rw [if_pos h]
  have hB : 0 < indexPtr → vectors = none →
      IndexService.addVectorsToFlatIndex indexPtr numVectors dim vectors w
        = (.throws INPUT_VECTORS_NULL, w) := by
    intro h hv
    unfold IndexService.addVectorsToFlatIndex
    rw [if_neg (by omega), hv]
  have hC : 0 < indexPtr → vectors ≠ none → (numVectors ≤ 0 ∨ dim ≤ 0) →
      IndexService.addVectorsToFlatIndex indexPtr numVectors dim vectors w
        = (.throws INVALID_COUNTS, w) := by
    intro h hv hc
    unfold IndexService.addVectorsToFlatIndex
    rw [if_neg (by omega)]
    cases vectors with
    | none => exact absurd rfl hv
    | some x => simp only [hc, if_true]
  have hD : (indexPtr ≤ 0 ∨ vectors = none ∨ numVectors ≤ 0 ∨ dim ≤ 0) →
      ∃ what, IndexService.addVectorsToFlatIndex indexPtr numVectors dim vectors w
        = (.throws what, w) := by
    intro h
    by_cases h1 : indexPtr ≤ 0
    · exact ⟨_, hA h1⟩
    · by_cases h2 : vectors = none
      · exact ⟨_, hB (by omega) h2⟩
      · refine ⟨_, hC (by omega) h2 ?_⟩
        rcases h with h | h | h | h
        · exact absurd h h1
        · exact absurd h h2
        · exact Or.inl h
        · exact Or.inr h
  have hE : ∀ index, w.heap.lookup indexPtr = some index → (index.hdr.d : Int) ≠ dim →
      0 < indexPtr → vectors ≠ none → 0 < numVectors → 0 < dim →
      IndexService.addVectorsToFlatIndex indexPtr numVectors dim vectors w
        = (.throws DIMENSION_MISMATCH, w) := by
    intro index hl hd h1 h2 h3 h4
    unfold IndexService.addVectorsToFlatIndex
    rw [if_neg (by omega)]
    cases vectors with
    | none => exact absurd rfl h2
    | some x =>
      have hc : ¬ (numVectors ≤ 0 ∨ dim ≤ 0) := by omega
      simp only [hc, if_false, hl, hd, ne_eq, not_false_eq_true, if_true]
  refine ⟨hA, hB, hC, hD, ?_, ?_⟩
  · intro index hl hd
    refine ⟨?_, hE index hl hd⟩
    by_cases hbad : indexPtr ≤ 0 ∨ vectors = none ∨ numVectors ≤ 0 ∨ dim ≤ 0
    · exact hD hbad
    · simp only [not_or, not_le] at hbad
      exact ⟨_, hE index hl hd hbad.1 hbad.2.1 hbad.2.2.1 hbad.2.2.2⟩
  · intro index x h1 hv h3 h4 hl hd hx
    have hadd : index.add numVectors.toNat x
        = .ok { hdr := { index.hdr with ntotal := index.hdr.ntotal + numVectors.toNat },
                codes := index.codes ++ x.take (numVectors.toNat * index.hdr.d) } := by
      unfold IndexFlat.add
      rw [if_neg (by omega)]
    refine ⟨{ hdr := { index.hdr with ntotal := index.hdr.ntotal + numVectors.toNat },
              codes := index.codes ++ x.take (numVectors.toNat * index.hdr.d) },
      ?_, lookup_storeFlat _ _ index _ hl, rfl, rfl, rfl, ?_⟩
    · unfold IndexService.addVectorsToFlatIndex
      rw [if_neg (by omega), hv]
      have hc : ¬ (numVectors ≤ 0 ∨ dim ≤ 0) := by omega
      simp only [hc, if_false, hl, hd, ne_eq, not_true_eq_false, hadd]
    · intro hwf
      exact vectorsOf_append index.hdr.d index.hdr.ntotal numVectors.toNat index.codes x hwf

/-- Witness for C12: on the flat index at address 4096 (dimension 4, two vectors), a null
handle and a wrong dimension are refused, and one more vector is appended. -/
theorem addVectorsToFlatIndex_contract_witness :
    IndexService.addVectorsToFlatIndex 0 1 4 (some [0, 0, 1, 0]) sampleWorld
      = (.throws INDEX_POINTER_NULL, sampleWorld) ∧
    IndexService.addVectorsToFlatIndex 4096 1 3 (some [0, 0, 1]) sampleWorld
      = (.throws DIMENSION_MISMATCH, sampleWorld) ∧
    ∃ added, IndexService.addVectorsToFlatIndex 4096 1 4 (some [0, 0, 1, 0]) sampleWorld
        = (.ok (), sampleWorld.storeFlat 4096 added) ∧
      added.codes = [1, 0, 0, 0, 0, 1, 0, 0] ++ [0, 0, 1, 0] ∧
      added.hdr.ntotal = 3 := by
  refine ⟨(addVectorsToFlatIndex_contract 0 1 4 (some [0, 0, 1, 0]) sampleWorld).1
      (by decide),
    ((addVectorsToFlatIndex_contract 4096 1 3 (some [0, 0, 1]) sampleWorld).2.2.2.2.1
      sampleFlat rfl (by decide)).2 (by decide) (by simp) (by decide) (by decide), ?_⟩
  obtain ⟨added, h1, _, h3, h4, _⟩ :=
    (addVectorsToFlatIndex_contract 4096 1 4 (some [0, 0, 1, 0]) sampleWorld).2.2.2.2.2
      sampleFlat [0, 0, 1, 0] (by decide) rfl (by decide) (by decide) rfl (by decide)
      (by decide)
  exact ⟨added, h1, h3, h4⟩

theorem lookup_filter_key {β : Type} (l : List (Int × β)) (addr : Int) :
    (l.filter (fun e => e.1 != addr)).lookup addr = none := by
  induction l with
  | nil => rfl
  | cons e l ih =>
    obtain ⟨a, v⟩ := e
    by_cases h : a = addr
    · simp only [List.filter, h, bne_self_eq_false]
      exact ih
    · have hb : (a != addr) = true := by simp [h]
      have hb2 : (addr == a) = false := by simp [Ne.symm h]
      simp only [List.filter, hb, List.lookup, hb2]
      exact ih

theorem writeIndexWith_dead_handle (serialize : Index → List Nat × Outcome Unit)
    (flush : List Nat → Outcome Unit) (isOpenSearchIOWriter : Bool) (idMapAddress : Int)
    (w : World) (hdead : w.handles.lookup idMapAddress = none) :
    writeIndexWith serialize flush isOpenSearchIOWriter idMapAddress w = (.undefined, w) := by
  unfold writeIndexWith
  rw [hdead]

/-- The world a `writeIndex` call leaves when neither serialization nor flush is
undefined: the handle's entry is gone and the last event is the destruction of the
identifier map. -/
theorem writeIndexWith_result (serialize : Index → List Nat × Outcome Unit)
    (flush : List Nat → Outcome Unit) (isOpenSearchIOWriter : Bool) (idMapAddress : Int)
    (w : World) (idMap : Index) (bytes : List Nat) (r1 r2 : Outcome Unit)
    (hlive : w.handles.lookup idMapAddress = some idMap) (hclosed : idMap.closed = true)
    (hs : serialize idMap = (bytes, r1)) (hf : flush (w.sink ++ bytes) = r2)
    (h1 : r1 ≠ .undefined) (h2 : r2 ≠ .undefined) :
    ∃ r sink events,
      writeIndexWith serialize flush isOpenSearchIOWriter idMapAddress w
        = (r, { heap := w.heap,
                handles := w.handles.filter (fun e => e.1 != idMapAddress),
                sink := sink,
                trace := events ++ [.destroyed idMap] }) ∧
      r ≠ .undefined := by
  unfold writeIndexWith
  rw [hlive]
  simp only [resolve_closed _ _ hclosed, writeIndexTry, hs, World.log]
  cases r1 with
  | ok u =>
    cases isOpenSearchIOWriter with
    | false =>
      simp only [Bool.false_eq_true, if_false, destroy_closed _ _ hclosed, catchAsWriteFailed]
      exact ⟨_, _, _, rfl, by simp⟩
    | true =>
      simp only [hf, if_true]
      cases r2 with
      | ok u2 =>
        simp only [destroy_closed _ _ hclosed, catchAsWriteFailed]
        exact ⟨_, _, _, rfl, by simp⟩
      | throws e =>
        simp only [destroy_closed _ _ hclosed, catchAsWriteFailed]
        exact ⟨_, _, _, rfl, by simp⟩
      | undefined => exact absurd rfl h2
  | throws e =>
    simp only [destroy_closed _ _ hclosed, catchAsWriteFailed]
    exact ⟨_, _, _, rfl, by simp⟩
  | undefined => exact absurd rfl h1

theorem writeIndexWith_consumes (serialize : Index → List Nat × Outcome Unit)
    (flush : List Nat → Outcome Unit) (isOpenSearchIOWriter : Bool) (idMapAddress : Int)
    (w : World) (idMap : Index)
    (hlive : w.handles.lookup idMapAddress = some idMap) (hclosed : idMap.closed = true)
    (h1 : (serialize idMap).2 ≠ .undefined)
    (h2 : flush (w.sink ++ (serialize idMap).1) ≠ .undefined) :
    HandleConsumed idMapAddress idMap
      (writeIndexWith serialize flush isOpenSearchIOWriter idMapAddress w) := by
  obtain ⟨r, sink, events, hr, hdef⟩ := writeIndexWith_result serialize flush
    isOpenSearchIOWriter idMapAddress w idMap (serialize idMap).1 (serialize idMap).2
    (flush (w.sink ++ (serialize idMap).1)) hlive hclosed rfl rfl h1 h2
  rw [hr]
  refine ⟨hdef, lookup_filter_key _ _, ?_, ?_⟩
  · show (events ++ [Event.destroyed idMap]).getLast? = some (.destroyed idMap)
    simp
  · intro serialize2 flush2 cap2
    exact writeIndexWith_dead_handle serialize2 flush2 cap2 idMapAddress _
      (lookup_filter_key _ _)

/-- C11 as stated fails: after a first successful `writeIndex` on the handle 8192, a
second call on the same handle does not fail with an error; it reads the destroyed
identifier map, which is undefined. -/
theorem writeIndex_second_call_counterexample :
    (IndexService.writeIndex sampleWriter (fun _ => .ok ()) true 8192 sampleWorld).1
      = .ok () ∧
    (IndexService.writeIndex sampleWriter (fun _ => .ok ()) true 8192
      (IndexService.writeIndex sampleWriter (fun _ => .ok ()) true 8192 sampleWorld).2).1
      = .undefined := by
  have h := writeIndexWith_consumes sampleWriter (fun _ => .ok ()) true 8192 sampleWorld
    sampleGraphTree rfl rfl (by decide) (by decide)
  have h10 := (writeIndexWith_cases sampleWriter (fun _ => .ok ()) true 8192 sampleWorld
    sampleGraphTree _ _ _ rfl rfl rfl rfl).1
  refine ⟨h10.2 ⟨rfl, fun _ => rfl⟩, ?_⟩
  have h2 := h.2.2.2 sampleWriter (fun _ => .ok ()) true
  exact congrArg Prod.fst h2

/-- C11, amended. Each `writeIndex` (float, binary, byte) on a live handle consumes it,
whether serialization and flush succeeded or threw: the identifier map is destroyed at
the end of the call and nothing lives behind the handle afterwards. The code checks no
handle, so a second `writeIndex` call on the same handle raises no invalid-handle
error: it is undefined. -/
theorem writeIndex_consumes_handle (writeIndex writeIndexBinary : Index → List Nat × Outcome Unit)
    (flush : List Nat → Outcome Unit) (isOpenSearchIOWriter : Bool) (idMapAddress : Int)
    (w : World) (idMap : Index)
    (hlive : w.handles.lookup idMapAddress = some idMap) (hclosed : idMap.closed = true)
    (hs : (writeIndex idMap).2 ≠ .undefined)
    (hsb : (writeIndexBinary idMap).2 ≠ .undefined)
    (hf : flush (w.sink ++ (writeIndex idMap).1) ≠ .undefined)
    (hfb : flush (w.sink ++ (writeIndexBinary idMap).1) ≠ .undefined) :
    HandleConsumed idMapAddress idMap
      (IndexService.writeIndex writeIndex flush isOpenSearchIOWriter idMapAddress w) ∧
    HandleConsumed idMapAddress idMap
      (BinaryIndexService.writeIndex writeIndexBinary flush isOpenSearchIOWriter
        idMapAddress w) ∧
    HandleConsumed idMapAddress idMap
      (ByteIndexService.writeIndex writeIndex flush isOpenSearchIOWriter idMapAddress w) :=
  ⟨writeIndexWith_consumes writeIndex flush isOpenSearchIOWriter idMapAddress w idMap
      hlive hclosed hs hf,
   writeIndexWith_consumes writeIndexBinary flush isOpenSearchIOWriter idMapAddress w idMap
      hlive hclosed hsb hfb,
   writeIndexWith_consumes writeIndex flush isOpenSearchIOWriter idMapAddress w idMap
      hlive hclosed hs hf⟩

/-- Witness for the amended C11: the handle 8192 of the sample world is consumed by a
call whose flush fails, and nothing lives behind it afterwards. -/
theorem writeIndex_consumes_handle_witness :
    (IndexService.writeIndex sampleWriter (fun _ => .throws "stream closed") true 8192
        sampleWorld).2.handles.lookup 8192 = none ∧
    (IndexService.writeIndex sampleWriter (fun _ => .throws "stream closed") true 8192
        sampleWorld).2.trace.getLast? = some (.destroyed sampleGraphTree) :=
  have h := (writeIndex_consumes_handle sampleWriter sampleWriter
    (fun _ => .throws "stream closed") true 8192 sampleWorld sampleGraphTree rfl rfl
    (by decide) (by decide) (by simp) (by simp)).1
  ⟨h.2.1, h.2.2.1⟩

end faiss_wrapper
end knn_jni
